import Mathlib

/-! # k8s-ecr-login-renew: a shallow embedding of `main.go` and `src/k8s/kubernetes.go`

Go strings and `[]byte` values are byte sequences; Go maps are association
lists with at most one binding per key (a `nil` map is `none`); calls to the
Kubernetes API are made through a client record over an explicit world state,
and every run records the calls it issued. Of the standard library,
`encoding/base64` and the decoding side of `encoding/json` are modelled;
`json.Marshal` is a parameter. The packages `aws` and the function
`k8s.GetNamespaces` are parameters of `main`.
-/

namespace EcrRenew

set_option maxRecDepth 100000

/-! ## Bytes and strings -/

/-- One byte. -/
abbrev Byte := Fin 256

/-- Go `string` and `[]byte`: a finite sequence of bytes. -/
abbrev GoString := List Byte

/-- The byte with value `n` (taken modulo 256). -/
def byte (n : Nat) : Byte := ⟨n % 256, Nat.mod_lt _ (by decide)⟩

/-- Go `utf8.EncodeRune`: the UTF-8 encoding of a code point; surrogates and
values above U+10FFFF are encoded as U+FFFD. -/
def encodeRune (r : Nat) : GoString :=
  if r < 0x80 then [byte r]
  else if r < 0x800 then [byte (0xC0 + r / 64), byte (0x80 + r % 64)]
  else if (0xD800 ≤ r ∧ r ≤ 0xDFFF) ∨ 0x10FFFF < r then [byte 0xEF, byte 0xBF, byte 0xBD]
  else if r < 0x10000 then
    [byte (0xE0 + r / 4096), byte (0x80 + r / 64 % 64), byte (0x80 + r % 64)]
  else
    [byte (0xF0 + r / 262144), byte (0x80 + r / 4096 % 64), byte (0x80 + r / 64 % 64),
      byte (0x80 + r % 64)]

/-- The bytes of a string literal of the source (its UTF-8 encoding). -/
def lit (s : String) : GoString := (s.toList.map (fun c => encodeRune c.toNat)).flatten

/-- An `error` value: the text its `Error()` method returns and, for a status
error of the API server (`apierrors.StatusError`), the HTTP code of the
status; `Code` is `none` for every other error. The program reads the text
only. -/
structure GoError where
  Error : GoString
  Code : Option Nat
deriving DecidableEq, Repr

/-- Go `errors.New(text)`. -/
def errorsNew (text : GoString) : GoError := { Error := text, Code := none }

/-- Go `apierrors.IsNotFound(err)`: a status error with the code 404, the
answer of the API server for an object that does not exist. -/
def IsNotFound (err : GoError) : Bool := decide (err.Code = some 404)

deriving instance DecidableEq for Except

/-- Go `strings.Contains(s, substr)`. -/
def stringsContains : GoString → GoString → Bool
  | [], substr => substr.isEmpty
  | c :: s, substr => substr.isPrefixOf (c :: s) || stringsContains s substr

/-- Go `strings.Split(s, sep)` for a separator `sep` of one byte: the fields
of `s` between the occurrences of `sep`, in order. -/
def stringsSplit (s : GoString) (sep : Byte) : List GoString :=
  match s with
  | [] => [[]]
  | c :: rest =>
    if c = sep then [] :: stringsSplit rest sep
    else
      match stringsSplit rest sep with
      | [] => [[c]]
      | field :: fields => (c :: field) :: fields

/-- Go `strings.Cut(s, sep)` for a separator of one byte: the text before and
after the first `sep`, `none` when `s` has no `sep`. -/
def stringsCut (s : GoString) (sep : Byte) : Option (GoString × GoString) :=
  match s with
  | [] => none
  | c :: rest =>
    if c = sep then some ([], rest)
    else
      match stringsCut rest sep with
      | none => none
      | some (before, after) => some (c :: before, after)

/-- Go `strings.Join(elems, sep)` for a separator of one byte. -/
def stringsJoin (elems : List GoString) (sep : Byte) : GoString :=
  match elems with
  | [] => []
  | [e] => e
  | e :: more => e ++ sep :: stringsJoin more sep

/-! ## Go maps -/

/-- The bindings of a non-nil Go map with string keys. -/
abbrev Bindings (V : Type) := List (GoString × V)

/-- Go `map[string]V`; `none` is the nil map. -/
abbrev GoMap (V : Type) := Option (Bindings V)

/-- The value bound to `k`, if any. -/
def Bindings.get {V : Type} : Bindings V → GoString → Option V
  | [], _ => none
  | (k', v) :: m, k => if k' = k then some v else Bindings.get m k

/-- The bindings after `m[k] = v`: the binding of `k` is replaced, or added. -/
def Bindings.set {V : Type} : Bindings V → GoString → V → Bindings V
  | [], k, v => [(k, v)]
  | (k', v') :: m, k, v => if k' = k then (k, v) :: m else (k', v') :: Bindings.set m k v

/-- The keys, in the order of the bindings. -/
def Bindings.keys {V : Type} (m : Bindings V) : List GoString := m.map Prod.fst

/-- A well-formed map binds every key at most once. -/
def Bindings.WF {V : Type} (m : Bindings V) : Prop := m.keys.Nodup

/-- Go `m[k]` with the comma-ok result; a nil map has no binding. -/
def GoMap.get {V : Type} (m : GoMap V) (k : GoString) : Option V :=
  match m with
  | none => none
  | some b => b.get k

/-- Go `len(m)`; the nil map has length 0. -/
def GoMap.len {V : Type} (m : GoMap V) : Nat :=
  match m with
  | none => 0
  | some b => b.length

/-- Go `for key, value := range src { dst[key] = value }` on a non-nil `dst`. -/
def Bindings.setAll {V : Type} (dst : Bindings V) (src : GoMap V) : Bindings V :=
  match src with
  | none => dst
  | some b => b.foldl (fun acc kv => acc.set kv.1 kv.2) dst

/-- The value of the last binding of `k` in a list of bindings. -/
def Bindings.getLast {V : Type} : Bindings V → GoString → Option V
  | [], _ => none
  | (k', v) :: m, k =>
    match Bindings.getLast m k with
    | some w => some w
    | none => if k' = k then some v else none

/-- A nil map is well formed; a non-nil map is when its bindings are. -/
def GoMap.WF {V : Type} (m : GoMap V) : Prop :=
  match m with
  | none => True
  | some b => b.WF

/-! ## `encoding/base64`, standard encoding with padding -/

/-- The alphabet of `base64.StdEncoding`. -/
def encodeStd : GoString :=
  lit "ABCDEFGHIJKLMNOPQRSTUVWXYZabcdefghijklmnopqrstuvwxyz0123456789+/"

/-- The padding character `=`. -/
def stdPadding : Byte := 61

/-- The character of a 6-bit value. -/
def encodeSextet (n : Nat) : Byte := encodeStd.getD n stdPadding

/-- The 6-bit value of a character of the alphabet. -/
def decodeSextet (c : Byte) : Option Nat :=
  let i := encodeStd.indexOf c
  if i < 64 then some i else none

/-- Go `base64.StdEncoding.EncodeToString`. -/
def base64Encode : GoString → GoString
  | [] => []
  | [a] => [encodeSextet (a.val / 4), encodeSextet (a.val % 4 * 16), stdPadding, stdPadding]
  | [a, b] =>
    [encodeSextet (a.val / 4), encodeSextet (a.val % 4 * 16 + b.val / 16),
      encodeSextet (b.val % 16 * 4), stdPadding]
  | a :: b :: c :: rest =>
    encodeSextet (a.val / 4) :: encodeSextet (a.val % 4 * 16 + b.val / 16) ::
      encodeSextet (b.val % 16 * 4 + c.val / 64) :: encodeSextet (c.val % 64) ::
      base64Encode rest

/-- Decoding of a padded text, four characters at a time; padding is accepted
in the last group only. -/
def base64DecodeQuanta : GoString → Option GoString
  | [] => some []
  | a :: b :: c :: d :: rest =>
    match decodeSextet a, decodeSextet b with
    | some x, some y =>
      if c = stdPadding ∧ d = stdPadding then
        if rest = [] then some [byte (x * 4 + y / 16)] else none
      else
        match decodeSextet c with
        | none => none
        | some z =>
          if d = stdPadding then
            if rest = [] then some [byte (x * 4 + y / 16), byte (y % 16 * 16 + z / 4)] else none
          else
            match decodeSextet d, base64DecodeQuanta rest with
            | some w, some more =>
              some (byte (x * 4 + y / 16) :: byte (y % 16 * 16 + z / 4) ::
                byte (z % 4 * 64 + w) :: more)
            | _, _ => none
    | _, _ => none
  | _ => none

/-- Go `base64.StdEncoding.DecodeString`: carriage returns and line feeds are
skipped, everything else must be a padded base64 text. -/
def base64Decode (s : GoString) : Option GoString :=
  base64DecodeQuanta (s.filter (fun c => decide (c ≠ 10 ∧ c ≠ 13)))

/-! ## `encoding/json`: decoding into a `map[string]string`

`json.Unmarshal` first runs the scanner of `scanner.go` over the whole input
(`checkValid`) and then stores the value into the target. The scanner below
follows `scanner.go` state by state; it also records the top-level value as
the typed store sees it: the members of a top-level object with their keys
unquoted, and of every member value its kind (and its text when it is a
string). Values nested deeper are checked for syntax only, as the store
skips them. -/

/-- The byte of an ASCII character. -/
def ch (c : Char) : Byte := byte c.toNat

/-- The double quote. -/
def dquote : Byte := 34

/-- The backslash. -/
def backslash : Byte := 92

/-- A member value of the top-level object, as far as the store into a
string looks at it. -/
inductive JsonMember where
  | null
  | bool
  | number
  | string (s : GoString)
  | array
  | object
deriving DecidableEq, Repr

/-- The top-level value of a JSON text. -/
inductive JsonValue where
  | null
  | bool
  | number
  | string (s : GoString)
  | array
  | object (members : List (GoString × JsonMember))
deriving DecidableEq, Repr

/-- The value of a hexadecimal digit. -/
def hexDigit (c : Byte) : Option Nat :=
  if ch '0' ≤ c ∧ c ≤ ch '9' then some (c.val - 48)
  else if ch 'a' ≤ c ∧ c ≤ ch 'f' then some (c.val - 97 + 10)
  else if ch 'A' ≤ c ∧ c ≤ ch 'F' then some (c.val - 65 + 10)
  else none

/-- Go `getu4` after the `\u`: the value of four hexadecimal digits. -/
def getu4 (h1 h2 h3 h4 : Byte) : Option Nat :=
  match hexDigit h1, hexDigit h2, hexDigit h3, hexDigit h4 with
  | some a, some b, some c, some d => some (((a * 16 + b) * 16 + c) * 16 + d)
  | _, _, _, _ => none

/-- The encoding of U+FFFD, `unicode.ReplacementChar`. -/
def replacementChar : GoString := [byte 0xEF, byte 0xBF, byte 0xBD]

/-- A continuation byte, `0x80..0xBF`. -/
def isCont (c : Byte) : Bool := decide (0x80 ≤ c.val ∧ c.val ≤ 0xBF)

/-- The bytes `c c1` are a well-formed two-byte UTF-8 sequence. -/
def validUtf8Two (c c1 : Byte) : Bool := decide (0xC2 ≤ c.val ∧ c.val ≤ 0xDF) && isCont c1

/-- The bytes `c c1 c2` are a well-formed three-byte UTF-8 sequence. -/
def validUtf8Three (c c1 c2 : Byte) : Bool :=
  (decide (c.val = 0xE0 ∧ 0xA0 ≤ c1.val ∧ c1.val ≤ 0xBF)
    || decide (c.val = 0xED ∧ 0x80 ≤ c1.val ∧ c1.val ≤ 0x9F)
    || (decide ((0xE1 ≤ c.val ∧ c.val ≤ 0xEC) ∨ c.val = 0xEE ∨ c.val = 0xEF) && isCont c1))
  && isCont c2

/-- The bytes `c c1 c2 c3` are a well-formed four-byte UTF-8 sequence. -/
def validUtf8Four (c c1 c2 c3 : Byte) : Bool :=
  (decide (c.val = 0xF0 ∧ 0x90 ≤ c1.val ∧ c1.val ≤ 0xBF)
    || decide (c.val = 0xF4 ∧ 0x80 ≤ c1.val ∧ c1.val ≤ 0x8F)
    || (decide (0xF1 ≤ c.val ∧ c.val ≤ 0xF3) && isCont c1))
  && isCont c2 && isCont c3

/-- What the escape sequence that starts with a backslash before `rest`
stands for, and how many bytes of `rest` belong to it. A `\u` escape of a
surrogate stands for a character only together with a second `\u` escape
that completes the pair; alone it stands for U+FFFD. -/
def unquoteEscape (rest : GoString) : GoString × Nat :=
  match rest with
  | [] => ([], 0)
  | e :: rest1 =>
    if e = ch 'u' then
      match rest1 with
      | h1 :: h2 :: h3 :: h4 :: rest2 =>
        match getu4 h1 h2 h3 h4 with
        | none => ([], rest.length)
        | some rr =>
          if 0xD800 ≤ rr ∧ rr < 0xE000 then
            match rest2 with
            | b :: u :: l1 :: l2 :: l3 :: l4 :: _ =>
              match (if b = backslash ∧ u = ch 'u' then getu4 l1 l2 l3 l4 else none) with
              | some rr1 =>
                if rr < 0xDC00 ∧ 0xDC00 ≤ rr1 ∧ rr1 < 0xE000 then
                  (encodeRune ((rr - 0xD800) * 1024 + (rr1 - 0xDC00) + 0x10000), 11)
                else (replacementChar, 5)
              | none => (replacementChar, 5)
            | _ => (replacementChar, 5)
          else (encodeRune rr, 5)
      | _ => ([], rest.length)
    else if e = ch 'b' then ([byte 8], 1)
    else if e = ch 'f' then ([byte 12], 1)
    else if e = ch 'n' then ([byte 10], 1)
    else if e = ch 'r' then ([byte 13], 1)
    else if e = ch 't' then ([byte 9], 1)
    else ([e], 1)

/-- Go `utf8.DecodeRune` at a byte `c ≥ 0x80` followed by `rest`, and the
rune encoded again: a well-formed sequence is kept, with the number of bytes
of `rest` that belong to it; otherwise `c` alone becomes U+FFFD. -/
def unquoteUtf8 (c : Byte) (rest : GoString) : GoString × Nat :=
  match rest with
  | [] => (replacementChar, 0)
  | c1 :: rest1 =>
    if validUtf8Two c c1 then ([c, c1], 1)
    else
      match rest1 with
      | [] => (replacementChar, 0)
      | c2 :: rest2 =>
        if validUtf8Three c c1 c2 then ([c, c1, c2], 2)
        else
          match rest2 with
          | [] => (replacementChar, 0)
          | c3 :: _ =>
            if validUtf8Four c c1 c2 c3 then ([c, c1, c2, c3], 3)
            else (replacementChar, 0)

/-- The loop of Go `unquoteBytes`; `skip` counts the bytes ahead that the
last step has already read. -/
def unquoteFrom : Nat → GoString → GoString
  | _, [] => []
  | skip + 1, _ :: rest => unquoteFrom skip rest
  | 0, c :: rest =>
    let step :=
      if c = backslash then unquoteEscape rest
      else if c.val < 0x80 then ([c], 0)
      else unquoteUtf8 c rest
    step.1 ++ unquoteFrom step.2 rest

/-- Go `unquoteBytes` on the text between the quotes of a string literal that
the scanner accepted: escapes are replaced by what they stand for, and bytes
that are not well-formed UTF-8 by U+FFFD. -/
def unquote (s : GoString) : GoString := unquoteFrom 0 s

/-- The step functions of `scanner.go` (`stateBeginValue`, ...), as a state. -/
inductive ScanStep where
  | beginValueOrEmpty | beginValue | beginStringOrEmpty | beginString
  | endValue | endTop
  | inString | inStringEsc | inStringEscU | inStringEscU1 | inStringEscU12 | inStringEscU123
  | neg | one | zero | dot | dot0 | e | eSign | e0
  | t | tr | tru | f | fa | fal | fals | n | nu | nul
  | error
deriving DecidableEq, Repr

/-- The entries of the scanner's `parseState` stack. -/
inductive ParseState where
  | parseObjectKey | parseObjectValue | parseArrayValue
deriving DecidableEq, Repr

/-- The constant `maxNestingDepth`. -/
def maxNestingDepth : Nat := 10000

/-- The scanner: `step`, `endTop`, `parseState` (innermost entry first) and
whether `err` is set, as in `scanner.go`; and what has been read of the
top-level value: the text of the string literal being scanned, the members
and the pending key of the top-level object, and the value once complete. -/
structure Scanner where
  step : ScanStep
  endTop : Bool
  parseState : List ParseState
  err : Bool
  literal : GoString
  key : GoString
  members : List (GoString × JsonMember)
  top : Option JsonValue
deriving DecidableEq, Repr

/-- Go `isSpace`. -/
def isSpace (c : Byte) : Bool :=
  decide (c = ch ' ' ∨ c = ch '\t' ∨ c = ch '\r' ∨ c = ch '\n')

/-- The digits `lo` to `9`. -/
def isDigitFrom (lo : Char) (c : Byte) : Bool := decide (ch lo ≤ c ∧ c ≤ ch '9')

/-- A hexadecimal digit. -/
def isHex (c : Byte) : Bool := (hexDigit c).isSome

/-- Go `scanner.reset`. -/
def Scanner.reset : Scanner :=
  { step := .beginValue, endTop := false, parseState := [], err := false,
    literal := [], key := [], members := [], top := none }

/-- Go `scanner.error`: the error is recorded and the scanner stops. -/
def Scanner.error (s : Scanner) : Scanner := { s with step := .error, err := true }

/-- A complete value as the value of the text; `members` are the members
read if it is an object. -/
def JsonMember.toValue (v : JsonMember) (members : List (GoString × JsonMember)) : JsonValue :=
  match v with
  | .null => .null
  | .bool => .bool
  | .number => .number
  | .string x => .string x
  | .array => .array
  | .object => .object members

/-- A value is complete. At the top level it is the value of the text;
directly inside the top-level object it is a key or the value of a member. -/
def Scanner.complete (s : Scanner) (v : JsonMember) : Scanner :=
  match s.parseState with
  | [] => { s with top := some (v.toValue s.members) }
  | [.parseObjectKey] =>
    match v with
    | .string k => { s with key := k }
    | _ => s
  | [.parseObjectValue] => { s with members := s.members ++ [(s.key, v)] }
  | _ => s

/-- Go `scanner.pushParseState`. -/
def Scanner.pushParseState (s : Scanner) (newParseState : ParseState) : Scanner :=
  let s := { s with parseState := newParseState :: s.parseState }
  if s.parseState.length ≤ maxNestingDepth then s else s.error

/-- Go `scanner.popParseState`; the closed array or object `v` is complete. -/
def Scanner.popParseState (s : Scanner) (v : JsonMember) : Scanner :=
  let s := { s with parseState := s.parseState.tail }
  let s := s.complete v
  if s.parseState.length = 0 then { s with step := .endTop, endTop := true }
  else { s with step := .endValue }

/-- Go `stateEndTop`. -/
def stateEndTop (s : Scanner) (c : Byte) : Scanner :=
  if !isSpace c then s.error else s

/-- Go `stateEndValue`. -/
def stateEndValue (s : Scanner) (c : Byte) : Scanner :=
  match s.parseState with
  | [] => stateEndTop { s with step := .endTop, endTop := true } c
  | ps :: outer =>
    if isSpace c then { s with step := .endValue }
    else
      match ps with
      | .parseObjectKey =>
        if c = ch ':' then { s with parseState := .parseObjectValue :: outer, step := .beginValue }
        else s.error
      | .parseObjectValue =>
        if c = ch ',' then { s with parseState := .parseObjectKey :: outer, step := .beginString }
        else if c = ch '}' then s.popParseState .object
        else s.error
      | .parseArrayValue =>
        if c = ch ',' then { s with step := .beginValue }
        else if c = ch ']' then s.popParseState .array
        else s.error

/-- Go `stateBeginValue`. Opening the top-level object starts its members. -/
def stateBeginValue (s : Scanner) (c : Byte) : Scanner :=
  if isSpace c then s
  else if c = ch '{' then
    ({ s with step := .beginStringOrEmpty,
              members := if s.parseState = [] then [] else s.members }).pushParseState
      .parseObjectKey
  else if c = ch '[' then ({ s with step := .beginValueOrEmpty }).pushParseState .parseArrayValue
  else if c = dquote then { s with step := .inString, literal := [] }
  else if c = ch '-' then { s with step := .neg }
  else if c = ch '0' then { s with step := .zero }
  else if c = ch 't' then { s with step := .t }
  else if c = ch 'f' then { s with step := .f }
  else if c = ch 'n' then { s with step := .n }
  else if isDigitFrom '1' c then { s with step := .one }
  else s.error

/-- Go `stateBeginValueOrEmpty`. -/
def stateBeginValueOrEmpty (s : Scanner) (c : Byte) : Scanner :=
  if isSpace c then s
  else if c = ch ']' then stateEndValue s c
  else stateBeginValue s c

/-- Go `stateBeginString`. -/
def stateBeginString (s : Scanner) (c : Byte) : Scanner :=
  if isSpace c then s
  else if c = dquote then { s with step := .inString, literal := [] }
  else s.error

/-- Go `stateBeginStringOrEmpty`. -/
def stateBeginStringOrEmpty (s : Scanner) (c : Byte) : Scanner :=
  if isSpace c then s
  else if c = ch '}' then
    stateEndValue { s with parseState := .parseObjectValue :: s.parseState.tail } c
  else stateBeginString s c

/-- Go `stateInString`; at the closing quote the string is complete. -/
def stateInString (s : Scanner) (c : Byte) : Scanner :=
  if c = dquote then ({ s with step := .endValue }).complete (.string (unquote s.literal))
  else if c = backslash then { s with step := .inStringEsc, literal := s.literal ++ [c] }
  else if c.val < 0x20 then s.error
  else { s with literal := s.literal ++ [c] }

/-- Go `stateInStringEsc`. -/
def stateInStringEsc (s : Scanner) (c : Byte) : Scanner :=
  if c = ch 'b' ∨ c = ch 'f' ∨ c = ch 'n' ∨ c = ch 'r' ∨ c = ch 't' ∨ c = backslash
      ∨ c = ch '/' ∨ c = dquote then
    { s with step := .inString, literal := s.literal ++ [c] }
  else if c = ch 'u' then { s with step := .inStringEscU, literal := s.literal ++ [c] }
  else s.error

/-- Go `stateInStringEscU`, `stateInStringEscU1`, `stateInStringEscU12` and
`stateInStringEscU123`: a hexadecimal digit leads to `next`. -/
def stateInStringEscHex (next : ScanStep) (s : Scanner) (c : Byte) : Scanner :=
  if isHex c then { s with step := next, literal := s.literal ++ [c] } else s.error

/-- A number ends before the byte `c`: the tail call `stateEndValue(s, c)` of
`state0`, `stateDot0` and `stateE0`. -/
def stateEndNumber (s : Scanner) (c : Byte) : Scanner := stateEndValue (s.complete .number) c

/-- Go `state0`. -/
def state0 (s : Scanner) (c : Byte) : Scanner :=
  if c = ch '.' then { s with step := .dot }
  else if c = ch 'e' ∨ c = ch 'E' then { s with step := .e }
  else stateEndNumber s c

/-- Go `state1`. -/
def state1 (s : Scanner) (c : Byte) : Scanner :=
  if isDigitFrom '0' c then { s with step := .one } else state0 s c

/-- Go `stateNeg`. -/
def stateNeg (s : Scanner) (c : Byte) : Scanner :=
  if c = ch '0' then { s with step := .zero }
  else if isDigitFrom '1' c then { s with step := .one }
  else s.error

/-- Go `stateDot`. -/
def stateDot (s : Scanner) (c : Byte) : Scanner :=
  if isDigitFrom '0' c then { s with step := .dot0 } else s.error

/-- Go `stateDot0`. -/
def stateDot0 (s : Scanner) (c : Byte) : Scanner :=
  if isDigitFrom '0' c then s
  else if c = ch 'e' ∨ c = ch 'E' then { s with step := .e }
  else stateEndNumber s c

/-- Go `stateESign`. -/
def stateESign (s : Scanner) (c : Byte) : Scanner :=
  if isDigitFrom '0' c then { s with step := .e0 } else s.error

/-- Go `stateE`. -/
def stateE (s : Scanner) (c : Byte) : Scanner :=
  if c = ch '+' ∨ c = ch '-' then { s with step := .eSign } else stateESign s c

/-- Go `stateE0`. -/
def stateE0 (s : Scanner) (c : Byte) : Scanner :=
  if isDigitFrom '0' c then s else stateEndNumber s c

/-- The states inside `true`, `false` and `null` before the last letter: the
letter `want` leads to `next`. -/
def stateLetter (want : Char) (next : ScanStep) (s : Scanner) (c : Byte) : Scanner :=
  if c = ch want then { s with step := next } else s.error

/-- The states `stateTru`, `stateFals` and `stateNul`: the last letter
completes the literal. -/
def stateLastLetter (want : Char) (v : JsonMember) (s : Scanner) (c : Byte) : Scanner :=
  if c = ch want then ({ s with step := .endValue }).complete v else s.error

/-- One call `s.step(s, c)`. -/
def Scanner.run (s : Scanner) (c : Byte) : Scanner :=
  match s.step with
  | .beginValueOrEmpty => stateBeginValueOrEmpty s c
  | .beginValue => stateBeginValue s c
  | .beginStringOrEmpty => stateBeginStringOrEmpty s c
  | .beginString => stateBeginString s c
  | .endValue => stateEndValue s c
  | .endTop => stateEndTop s c
  | .inString => stateInString s c
  | .inStringEsc => stateInStringEsc s c
  | .inStringEscU => stateInStringEscHex .inStringEscU1 s c
  | .inStringEscU1 => stateInStringEscHex .inStringEscU12 s c
  | .inStringEscU12 => stateInStringEscHex .inStringEscU123 s c
  | .inStringEscU123 => stateInStringEscHex .inString s c
  | .neg => stateNeg s c
  | .one => state1 s c
  | .zero => state0 s c
  | .dot => stateDot s c
  | .dot0 => stateDot0 s c
  | .e => stateE s c
  | .eSign => stateESign s c
  | .e0 => stateE0 s c
  | .t => stateLetter 'r' .tr s c
  | .tr => stateLetter 'u' .tru s c
  | .tru => stateLastLetter 'e' .bool s c
  | .f => stateLetter 'a' .fa s c
  | .fa => stateLetter 'l' .fal s c
  | .fal => stateLetter 's' .fals s c
  | .fals => stateLastLetter 'e' .bool s c
  | .n => stateLetter 'u' .nu s c
  | .nu => stateLetter 'l' .nul s c
  | .nul => stateLastLetter 'l' .null s c
  | .error => s

/-- Go `scanner.eof`: whether the text ended at the end of a value. -/
def Scanner.eof (s : Scanner) : Scanner :=
  if s.err then s
  else if s.endTop then s
  else
    let s := s.run (ch ' ')
    if s.endTop then s else s.error

/-- Go `checkValid`, keeping what was read: the top-level value of a valid
JSON text, `none` for a text that is not valid JSON. -/
def checkValid (data : GoString) : Option JsonValue :=
  let s := (data.foldl Scanner.run Scanner.reset).eof
  if s.err then none else s.top

/-- The errors of `json.Unmarshal`: a `SyntaxError` from `checkValid`, or an
`UnmarshalTypeError` from the store. -/
inductive JsonError where
  | syntaxError
  | unmarshalTypeError
deriving DecidableEq, Repr

/-- The store of a member value into the map element, a `string`: a string
is stored, `null` leaves the zero value, anything else is a type error (the
element stays the zero value and the key is still set). -/
def JsonMember.storeString : JsonMember → GoString × Bool
  | .string s => (s, true)
  | .null => ([], true)
  | _ => ([], false)

/-- Go `json.Unmarshal(data, &m)` for a nil `m` of type `map[string]string`:
the map afterwards, or the error. A top-level `null` leaves the map nil; an
object fills a new map, member by member; every other value is a type error. -/
def jsonUnmarshal (data : GoString) : Except JsonError (GoMap GoString) :=
  match checkValid data with
  | none => .error .syntaxError
  | some .null => .ok none
  | some (.object members) =>
    if members.all (fun kv => kv.2.storeString.2) then
      .ok (some (members.foldl (fun m kv => m.set kv.1 kv.2.storeString.1) []))
    else .error .unmarshalTypeError
  | some _ => .error .unmarshalTypeError

/-! ### JSON texts of objects with plain keys and values -/

/-- A byte that stands for itself in a JSON string literal: an ASCII byte
from the space on, other than the double quote and the backslash. -/
def isPlain (c : Byte) : Bool :=
  decide (0x20 ≤ c.val ∧ c.val < 0x80 ∧ c ≠ dquote ∧ c ≠ backslash)

/-- The JSON string literal of a string of plain bytes. -/
def renderString (s : GoString) : GoString := dquote :: s ++ [dquote]

/-- The JSON text, without white space, of an object whose keys and values
are strings of plain bytes. -/
def renderObject (pairs : List (GoString × GoString)) : GoString :=
  ch '{' ::
    stringsJoin (pairs.map (fun kv => renderString kv.1 ++ ch ':' :: renderString kv.2))
      (ch ',')
    ++ [ch '}']

/-- A scanner inside the top-level object of a text, with no error. -/
def Scanner.inObject (step : ScanStep) (ps : ParseState) (literal key : GoString)
    (members : List (GoString × JsonMember)) : Scanner :=
  { step := step, endTop := false, parseState := [ps], err := false, literal := literal,
    key := key, members := members, top := none }

/-! ## `src/k8s/kubernetes.go` -/

/-- The `auth` struct: one registry entry of the pull-secret document. -/
structure auth where
  Username : GoString
  Password : GoString
  Email : GoString
  Auth : GoString
deriving DecidableEq, Repr

/-- The `config` struct: the pull-secret document, `Auths` is a
`map[string]*auth` keyed by server. -/
structure config where
  Auths : GoMap auth
deriving DecidableEq, Repr

/-- The constant `defaultEmail`. -/
def defaultEmail : GoString := lit "awsregrenew@demo.test"

/-- The fields of `coreV1.Secret` that the program reads or writes:
`ObjectMeta.Name`, `ObjectMeta.Annotations`, `Type` and `Data`. -/
structure Secret where
  Name : GoString
  Annotations : GoMap GoString
  SecretType : GoString
  Data : GoMap GoString
deriving DecidableEq, Repr

/-- The constant `coreV1.SecretTypeDockerConfigJson`. -/
def SecretTypeDockerConfigJson : GoString := lit "kubernetes.io/dockerconfigjson"

/-- The constant `coreV1.DockerConfigJsonKey`. -/
def DockerConfigJsonKey : GoString := lit ".dockerconfigjson"

/-- A request sent to the secrets API of a namespace. -/
inductive Call where
  | get (nspace name : GoString)
  | create (nspace : GoString) (secret : Secret)
  | update (nspace : GoString) (secret : Secret)
  | delete (nspace name : GoString)
deriving DecidableEq, Repr

/-- The collaborators of `UpdatePassword` over a world state `σ`: `GetClient`
and the four operations of `client.CoreV1().Secrets(namespace)`. Every
operation may fail and may change the world. `Create` and `Update` also
return the stored object, which the program discards. -/
structure SecretsClient (σ : Type) where
  GetClient : σ → Option GoError × σ
  Get : GoString → GoString → σ → Except GoError Secret × σ
  Create : GoString → Secret → σ → Option GoError × σ
  Update : GoString → Secret → σ → Option GoError × σ
  Delete : GoString → GoString → σ → Option GoError × σ

/-- How a call of a Go function ends: it returns its `error` result (`none`
is `nil`), or it panics. -/
inductive Outcome where
  | returned (err : Option GoError)
  | panicked
deriving DecidableEq, Repr

/-- One run of `UpdatePassword`: how it ended, the API calls it issued in
order, and the world it left. -/
structure Run (σ : Type) where
  outcome : Outcome
  calls : List Call
  world : σ

/-- The function `getSecret`: a lookup error whose text contains `not found`
gives `nil, nil`; any other error is returned. -/
def getSecret {σ : Type} (client : SecretsClient σ) (name nspace : GoString) (w : σ) :
    Except GoError (Option Secret) × σ :=
  match client.Get nspace name w with
  | (.error err, w') =>
    if stringsContains err.Error (lit "not found") then (.ok none, w') else (.error err, w')
  | (.ok secret, w') => (.ok (some secret), w')

/-- The document `getConfig` builds before serialising it (lines 67 to 76):
one entry per server, assigned in list order. -/
def getConfigDocument (username password : GoString) (servers : List GoString) : config :=
  { Auths := some (servers.foldl
      (fun auths server =>
        auths.set server
          { Username := username
            Password := password
            Email := defaultEmail
            Auth := base64Encode (username ++ lit ":" ++ password) })
      []) }

/-- The function `getConfig`; `marshal` is `json.Marshal` at type `config`. -/
def getConfig (marshal : config → Except GoError GoString) (username password : GoString)
    (servers : List GoString) : Except GoError GoString :=
  match marshal (getConfigDocument username password servers) with
  | .error err => .error err
  | .ok configJson => .ok configJson

/-- The function `createSecret`. -/
def createSecret (name : GoString) (annotations : GoMap GoString) : Secret :=
  { Name := name
    SecretType := SecretTypeDockerConfigJson
    Data := some []
    Annotations := if annotations.len > 0 then annotations else none }

/-- The assignment `secret.Data[key] = value`; `none` when `Data` is the nil
map, where Go panics. -/
def Secret.setData (secret : Secret) (key value : GoString) : Option Secret :=
  match secret.Data with
  | none => none
  | some data => some { secret with Data := some (data.set key value) }

/-- Lines 121 to 128: the annotations are copied into the existing secret. -/
def Secret.applyAnnotations (secret : Secret) (annotations : GoMap GoString) : Secret :=
  if annotations.len > 0 then
    { secret with Annotations := some ((secret.Annotations.getD []).setAll annotations) }
  else secret

/-- Lines 141 to 144, and 113 to 116: a fresh secret is built and created. -/
def createFresh {σ : Type} (client : SecretsClient σ) (nspace name : GoString)
    (annotations : GoMap GoString) (configJson : GoString) (calls : List Call) (w : σ) :
    Run σ :=
  match (createSecret name annotations).setData DockerConfigJsonKey configJson with
  | none => ⟨.panicked, calls, w⟩
  | some secret =>
    match client.Create nspace secret w with
    | (err, w') => ⟨.returned err, calls ++ [.create nspace secret], w'⟩

/-- The function `UpdatePassword`. -/
def UpdatePassword {σ : Type} (client : SecretsClient σ)
    (marshal : config → Except GoError GoString)
    (nspace name username password : GoString) (servers : List GoString)
    (annotations : GoMap GoString) (w0 : σ) : Run σ :=
  match client.GetClient w0 with
  | (some err, w1) => ⟨.returned (some err), [], w1⟩
  | (none, w1) =>
  match getSecret client name nspace w1 with
  | (.error err, w2) => ⟨.returned (some err), [.get nspace name], w2⟩
  | (.ok found, w2) =>
  match getConfig marshal username password servers with
  | .error err => ⟨.returned (some err), [.get nspace name], w2⟩
  | .ok configJson =>
  match found with
  | none => createFresh client nspace name annotations configJson [.get nspace name] w2
  | some secret =>
  match secret.setData DockerConfigJsonKey configJson with
  | none => ⟨.panicked, [.get nspace name], w2⟩
  | some secret =>
  let secret := secret.applyAnnotations annotations
  match client.Update nspace secret w2 with
  | (none, w3) => ⟨.returned none, [.get nspace name, .update nspace secret], w3⟩
  | (some _, w3) =>
  match client.Delete nspace name w3 with
  | (some err, w4) =>
    ⟨.returned (some err), [.get nspace name, .update nspace secret, .delete nspace name], w4⟩
  | (none, w4) =>
    createFresh client nspace name annotations configJson
      [.get nspace name, .update nspace secret, .delete nspace name] w4

/-! ## The secret store, as a collaborator that never fails on its own -/

/-- The stored secrets, by namespace and name. -/
abbrev SecretStore := GoString → GoString → Option Secret

/-- The store with `secret` under `nspace` and `name`. -/
def SecretStore.put (w : SecretStore) (nspace name : GoString) (secret : Option Secret) :
    SecretStore :=
  fun nspace' name' => if nspace' = nspace ∧ name' = name then secret else w nspace' name'

/-- The error of a request for a secret that does not exist,
`apierrors.NewNotFound`. -/
def errNotFound (name : GoString) : GoError :=
  { Error := lit "secrets \"" ++ name ++ lit "\" not found", Code := some 404 }

/-- The error of a request to create a secret that exists,
`apierrors.NewAlreadyExists`. -/
def errAlreadyExists (name : GoString) : GoError :=
  { Error := lit "secrets \"" ++ name ++ lit "\" already exists", Code := some 409 }

/-- A client of an API server that is reachable and serves every request:
`Get` returns the stored secret, `Create` stores a secret whose name is
free, `Update` replaces a stored secret, `Delete` removes one. -/
def storeClient : SecretsClient SecretStore where
  GetClient w := (none, w)
  Get nspace name w :=
    match w nspace name with
    | some secret => (.ok secret, w)
    | none => (.error (errNotFound name), w)
  Create nspace secret w :=
    match w nspace secret.Name with
    | some _ => (some (errAlreadyExists secret.Name), w)
    | none => (none, w.put nspace secret.Name (some secret))
  Update nspace secret w :=
    match w nspace secret.Name with
    | some _ => (none, w.put nspace secret.Name (some secret))
    | none => (some (errNotFound secret.Name), w)
  Delete nspace name w :=
    match w nspace name with
    | some _ => (none, w.put nspace name none)
    | none => (some (errNotFound name), w)

/-! ## `main.go` -/

/-- The constant `envVarAwsSecret`. -/
def envVarAwsSecret : GoString := lit "DOCKER_SECRET_NAME"

/-- The constant `envVarTargetNamespace`. -/
def envVarTargetNamespace : GoString := lit "TARGET_NAMESPACE"

/-- The constant `envVarExcludeNamespace`. -/
def envVarExcludeNamespace : GoString := lit "EXCLUDE_NAMESPACE"

/-- The constant `envVarRegistries`. -/
def envVarRegistries : GoString := lit "DOCKER_REGISTRIES"

/-- The constant `envVarSecretAnnotations`. -/
def envVarSecretAnnotations : GoString := lit "SECRET_ANNOTATIONS"

/-- The function `getSecretAnnotations`; `getenv` is `os.Getenv`. The error
returned wraps the error of `json.Unmarshal` and is identified by it. -/
def getSecretAnnotations (getenv : GoString → GoString) : Except JsonError (GoMap GoString) :=
  let annotationsStr := getenv envVarSecretAnnotations
  if annotationsStr = [] then .ok (some [])
  else
    match jsonUnmarshal annotationsStr with
    | .error err => .error err
    | .ok annotations => .ok annotations

/-- The function `getServerList`; `getenv` is `os.Getenv`. -/
def getServerList (getenv : GoString → GoString) (defaultServer : GoString) : List GoString :=
  let addedServersSetting := getenv envVarRegistries
  if addedServersSetting = [] then [defaultServer]
  else stringsSplit addedServersSetting (ch ',')

/-- The value a run of `main` panics with. -/
inductive PanicValue where
  | requiredVariable
  | error (err : GoError)
  | annotationsError (err : JsonError)
  | failedSecrets
  | nilMapAssignment
deriving DecidableEq, Repr

/-- The progress of the loop of `main` over the namespaces: the flag
`failed`, whether a call of `UpdatePassword` panicked, the calls of
`UpdatePassword` made so far with how each ended, the API calls issued, and
the world. -/
structure Progress (σ : Type) where
  failed : Bool
  panicked : Bool
  attempts : List (GoString × Outcome)
  calls : List Call
  world : σ

/-- The start of the loop: `failed := false`. -/
def Progress.start {σ : Type} (w : σ) : Progress σ :=
  { failed := false, panicked := false, attempts := [], calls := [], world := w }

/-- Lines 75 to 84: the loop over the namespaces; `upsert` is the call of
`k8s.UpdatePassword` for one namespace. A panic inside a call ends the loop. -/
def updateNamespaces {σ : Type} (upsert : GoString → σ → Run σ) :
    List GoString → Progress σ → Progress σ
  | [], st => st
  | ns :: rest, st =>
    let r := upsert ns st.world
    let st :=
      { st with attempts := st.attempts ++ [(ns, r.outcome)], calls := st.calls ++ r.calls,
                world := r.world }
    match r.outcome with
    | .panicked => { st with panicked := true }
    | .returned (some _) => updateNamespaces upsert rest { st with failed := true }
    | .returned none => updateNamespaces upsert rest st

/-- Lines 86 to 90: how the run ends after the loop; `none` is the normal
end, `Job complete.`. -/
def Progress.result {σ : Type} (st : Progress σ) : Option PanicValue :=
  if st.panicked then some .nilMapAssignment
  else if st.failed then some .failedSecrets
  else none

/-- The type `aws.DockerCredentials`. -/
structure DockerCredentials where
  Username : GoString
  Password : GoString
  Server : GoString
deriving DecidableEq, Repr

/-- What `main` reads and calls besides the secrets API: `os.Getenv`,
`aws.GetDockerCredentials` and `k8s.GetNamespaces`. -/
structure Environment (σ : Type) where
  Getenv : GoString → GoString
  GetDockerCredentials : Except GoError DockerCredentials
  GetNamespaces : GoString → GoString → σ → Except GoError (List GoString) × σ

/-- One run of `main`: the panic it ended with, if any, and the progress of
the loop over the namespaces. -/
structure MainRun (σ : Type) where
  panic : Option PanicValue
  progress : Progress σ

/-- The function `main`. -/
def main {σ : Type} (env : Environment σ) (client : SecretsClient σ)
    (marshal : config → Except GoError GoString) (w0 : σ) : MainRun σ :=
  let name := env.Getenv envVarAwsSecret
  if name = [] then ⟨some .requiredVariable, Progress.start w0⟩
  else
    match env.GetDockerCredentials with
    | .error err => ⟨some (.error err), Progress.start w0⟩
    | .ok credentials =>
    match getSecretAnnotations env.Getenv with
    | .error err => ⟨some (.annotationsError err), Progress.start w0⟩
    | .ok annotations =>
    let servers := getServerList env.Getenv credentials.Server
    let targetNamespace := env.Getenv envVarTargetNamespace
    let excludeNamespace := env.Getenv envVarExcludeNamespace
    match env.GetNamespaces targetNamespace excludeNamespace w0 with
    | (.error err, w1) => ⟨some (.error err), Progress.start w1⟩
    | (.ok namespaces, w1) =>
    let st :=
      updateNamespaces
        (fun ns w =>
          UpdatePassword client marshal ns name credentials.Username credentials.Password
            servers annotations w)
        namespaces (Progress.start w1)
    ⟨st.result, st⟩

/-! ## Sample data -/

/-- The JSON text of one entry of the document, for strings that need no
escaping. -/
def renderAuth (a : auth) : GoString :=
  lit "\x7b\"username\":\"" ++ a.Username ++ lit "\",\"password\":\"" ++ a.Password
    ++ lit "\",\"email\":\"" ++ a.Email ++ lit "\",\"auth\":\"" ++ a.Auth ++ lit "\"\x7d"

/-- A serialiser for the examples: the JSON text of the document, entries in
the order of the bindings, for strings that need no escaping. -/
def renderConfig (doc : config) : Except GoError GoString :=
  .ok (lit "\x7b\"auths\":\x7b"
    ++ stringsJoin ((doc.Auths.getD []).map (fun kv => lit "\"" ++ kv.1 ++ lit "\":" ++ renderAuth kv.2))
        (ch ',')
    ++ lit "\x7d\x7d")

/-- A secret `regcred` with the annotations `a: 1` and `b: 2`. -/
def sampleExisting : Secret :=
  { Name := lit "regcred"
    Annotations := some [(lit "a", lit "1"), (lit "b", lit "2")]
    SecretType := SecretTypeDockerConfigJson
    Data := some [(DockerConfigJsonKey, lit "old")] }

/-- The annotations `b: 3` and `c: 4`. -/
def sampleAnnotations : GoMap GoString := some [(lit "b", lit "3"), (lit "c", lit "4")]

/-- The empty store. -/
def SecretStore.empty : SecretStore := fun _ _ => none

/-- A store that holds `sampleExisting` in the namespace `default`. -/
def sampleStore : SecretStore :=
  SecretStore.empty.put (lit "default") (lit "regcred") (some sampleExisting)

/-- The payload for the user `AWS`, the password `pw` and the server `x.io`. -/
def samplePayload : GoString :=
  lit "\x7b\"auths\":\x7b\"x.io\":\x7b\"username\":\"AWS\",\"password\":\"pw\",\"email\":\"awsregrenew@demo.test\",\"auth\":\"QVdTOnB3\"\x7d\x7d\x7d"

/-- The secret `sampleExisting` after the update with `sampleAnnotations`. -/
def sampleUpdated : Secret :=
  { Name := lit "regcred"
    Annotations := some [(lit "a", lit "1"), (lit "b", lit "3"), (lit "c", lit "4")]
    SecretType := SecretTypeDockerConfigJson
    Data := some [(DockerConfigJsonKey, samplePayload)] }

/-- The error of a request that the role of the client does not allow. -/
def errForbidden : GoError :=
  { Error := lit "secrets \"regcred\" is forbidden", Code := some 403 }

/-- The error of a request that does not reach the API server. -/
def errConnectionRefused : GoError := errorsNew (lit "connection refused")

/-- A client whose role may not update secrets: `Update` is refused, the
other requests are served. -/
def noUpdateClient : SecretsClient SecretStore :=
  { storeClient with Update := fun _ _ w => (some errForbidden, w) }

/-- A client of an API server that refuses every request. -/
def refusedClient : SecretsClient Unit where
  GetClient w := (none, w)
  Get _ _ w := (.error errConnectionRefused, w)
  Create _ _ w := (some errConnectionRefused, w)
  Update _ _ w := (some errConnectionRefused, w)
  Delete _ _ w := (some errConnectionRefused, w)

/-- The secret created for `sampleAnnotations` and `samplePayload`. -/
def sampleCreated : Secret :=
  { Name := lit "regcred"
    Annotations := some [(lit "b", lit "3"), (lit "c", lit "4")]
    SecretType := lit "kubernetes.io/dockerconfigjson"
    Data := some [(lit ".dockerconfigjson", samplePayload)] }

/-- A client whose role may not create secrets in the namespace `app`; every
other request is served. -/
def noCreateInAppClient : SecretsClient SecretStore :=
  { storeClient with
    Create := fun nspace secret w =>
      if nspace = lit "app" then (some errForbidden, w)
      else storeClient.Create nspace secret w }

/-- A secret `regcred` without data, as `kubectl create secret generic regcred`
makes it: its `Data` map is nil. -/
def sampleWithoutData : Secret :=
  { Name := lit "regcred", Annotations := none, SecretType := lit "Opaque", Data := none }

/-- A store that holds `sampleWithoutData` in the namespace `default`. -/
def sampleStoreWithoutData : SecretStore :=
  SecretStore.empty.put (lit "default") (lit "regcred") (some sampleWithoutData)

/-- An environment without `DOCKER_SECRET_NAME`. -/
def sampleEnvironmentWithoutName : Environment SecretStore :=
  { Getenv := fun _ => []
    GetDockerCredentials := .ok { Username := lit "AWS", Password := lit "pw", Server := lit "x.io" }
    GetNamespaces := fun _ _ w => (.ok [lit "default"], w) }

/-- The error of a lookup that the role of the client does not allow, with
the text of the RBAC authoriser for a role binding to a role that does not
exist: a status error with the code 403. -/
def errForbiddenRoleNotFound : GoError :=
  { Error := lit "secrets \"regcred\" is forbidden: User \"system:serviceaccount:default:ecr-renew\""
      ++ lit " cannot get resource \"secrets\" in API group \"\" in the namespace \"default\":"
      ++ lit " RBAC: role.rbac.authorization.k8s.io \"ecr-renew\" not found"
    Code := some 403 }

/-- A client whose role may not read secrets: `Get` is refused, the other
requests are served. -/
def noGetClient : SecretsClient SecretStore :=
  { storeClient with Get := fun _ _ w => (.error errForbiddenRoleNotFound, w) }

/-- An environment with the secret name `regcred`, no other setting, the
credentials `AWS`, `pw` for the server `x.io`, and the namespaces `default`
and `app`. -/
def sampleEnvironment : Environment SecretStore :=
  { Getenv := fun k => if k = envVarAwsSecret then lit "regcred" else []
    GetDockerCredentials := .ok { Username := lit "AWS", Password := lit "pw", Server := lit "x.io" }
    GetNamespaces := fun _ _ w => (.ok [lit "default", lit "app"], w) }

/-- The secret created for `samplePayload` without annotations. -/
def sampleCreatedPlain : Secret :=
  { Name := lit "regcred"
    Annotations := none
    SecretType := lit "kubernetes.io/dockerconfigjson"
    Data := some [(lit ".dockerconfigjson", samplePayload)] }

/-- One call of `upsert` for every namespace of the list, in list order and
whatever the earlier calls returned, each in the world the earlier calls
left: the namespaces with how their calls ended. -/
def eachNamespaceOnce {σ : Type} (upsert : GoString → σ → Run σ) :
    List GoString → σ → List (GoString × Outcome)
  | [], _ => []
  | ns :: rest, w => (ns, (upsert ns w).outcome) :: eachNamespaceOnce upsert rest (upsert ns w).world

/-! # Theorems -/

/-! ## Go maps: lookups after assignments -/

theorem Bindings.get_set {V : Type} (m : Bindings V) (k k' : GoString) (v : V) :
    (m.set k v).get k' = if k = k' then some v else m.get k' := by
  induction m with
  | nil => simp [Bindings.set, Bindings.get]
  | cons kv m ih =>
    obtain ⟨k0, v0⟩ := kv
    by_cases h0 : k0 = k
    · subst h0
      by_cases h1 : k0 = k' <;> simp [Bindings.set, Bindings.get, h1]
    · by_cases h1 : k0 = k'
      · subst h1
        have : ¬ k = k0 := fun h => h0 h.symm
        simp [Bindings.set, Bindings.get, h0, this]
      · simp [Bindings.set, Bindings.get, h0, h1, ih]

theorem Bindings.get_foldl_set {V : Type} (src dst : Bindings V) (k : GoString) :
    (src.foldl (fun acc kv => acc.set kv.1 kv.2) dst).get k
      = (src.getLast k).or (dst.get k) := by
  induction src generalizing dst with
  | nil => simp [Bindings.getLast]
  | cons kv src ih =>
    obtain ⟨k0, v0⟩ := kv
    simp only [List.foldl_cons, ih, Bindings.getLast]
    cases h : Bindings.getLast src k with
    | some w => simp
    | none =>
      simp only [Bindings.get_set]
      by_cases h0 : k0 = k <;> simp [h0]

theorem Bindings.getLast_eq_none {V : Type} (m : Bindings V) (k : GoString)
    (h : k ∉ m.keys) : m.getLast k = none := by
  induction m with
  | nil => rfl
  | cons kv m ih =>
    obtain ⟨k0, v0⟩ := kv
    simp only [Bindings.keys, List.map_cons, List.mem_cons, not_or] at h
    have hm : k ∉ Bindings.keys m := h.2
    have h0 : ¬ k0 = k := fun e => h.1 e.symm
    simp [Bindings.getLast, ih hm, h0]

theorem Bindings.getLast_eq_get {V : Type} (m : Bindings V) (k : GoString) (h : m.WF) :
    m.getLast k = m.get k := by
  induction m with
  | nil => rfl
  | cons kv m ih =>
    obtain ⟨k0, v0⟩ := kv
    simp only [Bindings.WF, Bindings.keys, List.map_cons, List.nodup_cons] at h
    have ihm := ih h.2
    by_cases h0 : k0 = k
    · subst h0
      simp [Bindings.getLast, Bindings.get, Bindings.getLast_eq_none m k0 h.1]
    · simp only [Bindings.getLast, Bindings.get, h0, if_false, ihm]
      cases Bindings.get m k <;> rfl

theorem Bindings.set_set {V : Type} (m : Bindings V) (k : GoString) (v : V) :
    (m.set k v).set k v = m.set k v := by
  induction m with
  | nil => simp [Bindings.set]
  | cons kv m ih =>
    obtain ⟨k0, v0⟩ := kv
    by_cases h0 : k0 = k
    · subst h0; simp [Bindings.set]
    · simp [Bindings.set, h0, ih]

theorem Bindings.keys_set {V : Type} (m : Bindings V) (k : GoString) (v : V) :
    (m.set k v).keys = if k ∈ m.keys then m.keys else m.keys ++ [k] := by
  induction m with
  | nil => simp [Bindings.set, Bindings.keys]
  | cons kv m ih =>
    obtain ⟨k0, v0⟩ := kv
    by_cases h0 : k0 = k
    · subst h0; simp [Bindings.set, Bindings.keys]
    · have : ¬ k = k0 := fun e => h0 e.symm
      simp only [Bindings.keys] at ih
      by_cases hm : k ∈ List.map Prod.fst m
      · simp [Bindings.set, Bindings.keys, h0, this, hm, ih]
      · simp [Bindings.set, Bindings.keys, h0, this, hm, ih]

theorem Bindings.wf_set {V : Type} (m : Bindings V) (k : GoString) (v : V) (h : m.WF) :
    (m.set k v).WF := by
  unfold Bindings.WF at *
  rw [Bindings.keys_set]
  split
  · exact h
  · rename_i hk
    exact List.Nodup.append h (List.nodup_singleton k) (by simpa using hk)

theorem GoMap.get_setAll {V : Type} (dst : Bindings V) (src : GoMap V) (k : GoString)
    (h : src.WF) :
    (dst.setAll src).get k = (src.get k).or (dst.get k) := by
  cases src with
  | none => simp [Bindings.setAll, GoMap.get]
  | some b =>
    simp only [Bindings.setAll, GoMap.get, Bindings.get_foldl_set]
    rw [Bindings.getLast_eq_get b k h]

theorem Secret.get_applyAnnotations (secret : Secret) (annotations : GoMap GoString)
    (k : GoString) (h : annotations.WF) :
    (secret.applyAnnotations annotations).Annotations.get k
      = (annotations.get k).or (secret.Annotations.get k) := by
  unfold Secret.applyAnnotations
  split
  · simp only [GoMap.get]
    rw [GoMap.get_setAll _ _ _ h]
    cases hE : secret.Annotations <;> simp [GoMap.get, Option.getD, Bindings.get]
  · rename_i hlen
    cases annotations with
    | none => simp [GoMap.get]
    | some b =>
      cases b with
      | nil => simp [GoMap.get, Bindings.get]
      | cons kv b => simp [GoMap.len] at hlen

theorem Secret.setData_annotations (secret updated : Secret) (key value : GoString)
    (h : secret.setData key value = some updated) : updated.Annotations = secret.Annotations := by
  unfold Secret.setData at h
  split at h
  · cases h
  · cases h; rfl

/-- C1: on the update-in-place path, when the update call succeeds, the secret
sent to the store carries the existing annotations overridden by the new
ones: a key of the new map has its new value, and every other key has what
the existing secret had (or nothing); an empty new map leaves the existing
annotations as they are. -/
theorem updatePassword_update_merges_annotations {σ : Type} (client : SecretsClient σ)
    (marshal : config → Except GoError GoString)
    (nspace name username password : GoString) (servers : List GoString)
    (annotations : GoMap GoString) (w0 w1 w2 : σ) (existing sent : Secret)
    (hWF : annotations.WF)
    (hClient : client.GetClient w0 = (none, w1))
    (hGet : client.Get nspace name w1 = (.ok existing, w2))
    (hCalls :
      (UpdatePassword client marshal nspace name username password servers annotations w0).calls
        = [.get nspace name, .update nspace sent]) :
    (UpdatePassword client marshal nspace name username password servers annotations w0).outcome
        = .returned none
      ∧ (∀ k v, annotations.get k = some v → sent.Annotations.get k = some v)
      ∧ (∀ k, annotations.get k = none →
          sent.Annotations.get k = existing.Annotations.get k)
      ∧ (annotations.len = 0 → sent.Annotations = existing.Annotations) := by
  have hSecret : getSecret client name nspace w1 = (.ok (some existing), w2) := by
    simp [getSecret, hGet]
  unfold UpdatePassword at hCalls ⊢
  simp only [hClient, hSecret] at hCalls ⊢
  cases hCfg : getConfig marshal username password servers with
  | error err => simp [hCfg] at hCalls
  | ok configJson =>
    simp only [hCfg] at hCalls ⊢
    cases hData : existing.setData DockerConfigJsonKey configJson with
    | none => simp [hData] at hCalls
    | some withData =>
      simp only [hData] at hCalls ⊢
      have hAnn := Secret.setData_annotations _ _ _ _ hData
      cases hUpd : client.Update nspace (withData.applyAnnotations annotations) w2 with
      | mk res w3 =>
        cases res with
        | none =>
          simp only [hUpd] at hCalls ⊢
          simp only [List.cons.injEq, Call.update.injEq, and_true, true_and] at hCalls
          subst hCalls
          refine ⟨by trivial, ?_, ?_, ?_⟩
          · intro k v hk
            rw [Secret.get_applyAnnotations _ _ _ hWF, hk]; rfl
          · intro k hk
            rw [Secret.get_applyAnnotations _ _ _ hWF, hk, hAnn]; rfl
          · intro hLen
            simp [Secret.applyAnnotations, hLen, hAnn]
        | some err =>
          simp only [hUpd] at hCalls
          cases hDel : client.Delete nspace name w3 with
          | mk res w4 =>
            cases res with
            | some e => simp [hDel] at hCalls
            | none =>
              simp only [hDel, createFresh] at hCalls
              split at hCalls <;> simp at hCalls

theorem updatePassword_update_merges_annotations_witness :
    sampleAnnotations.WF
      ∧ storeClient.GetClient sampleStore = (none, sampleStore)
      ∧ storeClient.Get (lit "default") (lit "regcred") sampleStore
          = (.ok sampleExisting, sampleStore)
      ∧ (UpdatePassword storeClient renderConfig (lit "default") (lit "regcred") (lit "AWS")
            (lit "pw") [lit "x.io"] sampleAnnotations sampleStore).calls
          = [.get (lit "default") (lit "regcred"), .update (lit "default") sampleUpdated]
      ∧ sampleUpdated.Annotations.get (lit "b") = some (lit "3")
      ∧ sampleUpdated.Annotations.get (lit "c") = some (lit "4")
      ∧ sampleUpdated.Annotations.get (lit "a") = sampleExisting.Annotations.get (lit "a") :=
  have hWF : sampleAnnotations.WF := by
    simp [sampleAnnotations, GoMap.WF, Bindings.WF, Bindings.keys]; decide
  have hCalls :
      (UpdatePassword storeClient renderConfig (lit "default") (lit "regcred") (lit "AWS")
          (lit "pw") [lit "x.io"] sampleAnnotations sampleStore).calls
        = [.get (lit "default") (lit "regcred"), .update (lit "default") sampleUpdated] := by
    decide
  have h :=
    updatePassword_update_merges_annotations storeClient renderConfig (lit "default")
      (lit "regcred") (lit "AWS") (lit "pw") [lit "x.io"] sampleAnnotations sampleStore
      sampleStore sampleStore sampleExisting sampleUpdated hWF rfl rfl hCalls
  ⟨hWF, rfl, rfl, hCalls, h.2.1 (lit "b") (lit "3") (by decide),
    h.2.1 (lit "c") (lit "4") (by decide), h.2.2.1 (lit "a") (by decide)⟩

theorem createFresh_eq {σ : Type} (client : SecretsClient σ) (nspace name : GoString)
    (annotations : GoMap GoString) (configJson : GoString) (calls : List Call) (w : σ) :
    createFresh client nspace name annotations configJson calls w
      = ⟨.returned
          (client.Create nspace
            { Name := name
              Annotations := if annotations.len > 0 then annotations else none
              SecretType := SecretTypeDockerConfigJson
              Data := some [(DockerConfigJsonKey, configJson)] } w).1,
          calls ++ [.create nspace
            { Name := name
              Annotations := if annotations.len > 0 then annotations else none
              SecretType := SecretTypeDockerConfigJson
              Data := some [(DockerConfigJsonKey, configJson)] }],
          (client.Create nspace
            { Name := name
              Annotations := if annotations.len > 0 then annotations else none
              SecretType := SecretTypeDockerConfigJson
              Data := some [(DockerConfigJsonKey, configJson)] } w).2⟩ := by
  simp [createFresh, createSecret, Secret.setData, Bindings.set]

/-- C7: when the lookup yields no secret, the secret `UpdatePassword` creates
has the given name, the type `kubernetes.io/dockerconfigjson`, a `Data` map
with the one key `.dockerconfigjson` holding the document of `getConfig`, and
the given annotations if there are any, none otherwise; the run is the lookup
followed by this one create, and returns what the create returns. -/
theorem updatePassword_creates_docker_config_secret {σ : Type} (client : SecretsClient σ)
    (marshal : config → Except GoError GoString)
    (nspace name username password : GoString) (servers : List GoString)
    (annotations : GoMap GoString) (w0 w1 w2 : σ) (configJson : GoString)
    (hClient : client.GetClient w0 = (none, w1))
    (hSecret : getSecret client name nspace w1 = (.ok none, w2))
    (hConfig : getConfig marshal username password servers = .ok configJson) :
    ∃ created : Secret,
      (UpdatePassword client marshal nspace name username password servers annotations w0).calls
          = [.get nspace name, .create nspace created]
        ∧ (UpdatePassword client marshal nspace name username password servers annotations
            w0).outcome = .returned (client.Create nspace created w2).1
        ∧ created.Name = name
        ∧ created.SecretType = lit "kubernetes.io/dockerconfigjson"
        ∧ created.Data = some [(lit ".dockerconfigjson", configJson)]
        ∧ (0 < annotations.len → created.Annotations = annotations)
        ∧ (annotations.len = 0 → created.Annotations = none) := by
  refine ⟨{ Name := name
            Annotations := if annotations.len > 0 then annotations else none
            SecretType := SecretTypeDockerConfigJson
            Data := some [(DockerConfigJsonKey, configJson)] }, ?_, ?_, rfl, rfl, rfl, ?_, ?_⟩
  · simp [UpdatePassword, hClient, hSecret, hConfig, createFresh_eq]
  · simp [UpdatePassword, hClient, hSecret, hConfig, createFresh_eq]
  · intro h; simp [h]
  · intro h; simp [h]

theorem updatePassword_creates_docker_config_secret_witness :
    storeClient.GetClient sampleStore = (none, sampleStore)
      ∧ getSecret storeClient (lit "regcred") (lit "app") sampleStore = (.ok none, sampleStore)
      ∧ getConfig renderConfig (lit "AWS") (lit "pw") [lit "x.io"] = .ok samplePayload
      ∧ ∃ created : Secret,
          (UpdatePassword storeClient renderConfig (lit "app") (lit "regcred") (lit "AWS")
              (lit "pw") [lit "x.io"] sampleAnnotations sampleStore).calls
            = [.get (lit "app") (lit "regcred"), .create (lit "app") created]
          ∧ created = sampleCreated := by
  have hSecret :
      getSecret storeClient (lit "regcred") (lit "app") sampleStore = (.ok none, sampleStore) := by
    rfl
  have hConfig : getConfig renderConfig (lit "AWS") (lit "pw") [lit "x.io"] = .ok samplePayload := by
    decide
  obtain ⟨created, hCalls, -, hName, hType, hData, hAnn, -⟩ :=
    updatePassword_creates_docker_config_secret storeClient renderConfig (lit "app")
      (lit "regcred") (lit "AWS") (lit "pw") [lit "x.io"] sampleAnnotations sampleStore
      sampleStore sampleStore samplePayload rfl hSecret hConfig
  refine ⟨rfl, hSecret, hConfig, created, hCalls, ?_⟩
  have hAnn' := hAnn (by decide)
  cases created
  simp only at hName hType hData hAnn'
  subst hName hType hData hAnn'
  rfl

/-- C2: when the update call fails and the delete succeeds, `UpdatePassword`
issues one delete and then one create after the failed update, returns what
the create returns, and the secret it creates is the secret a run that finds
no existing secret creates from the same inputs. -/
theorem updatePassword_fallback_recreates {σ τ : Type} (client : SecretsClient σ)
    (other : SecretsClient τ) (marshal : config → Except GoError GoString)
    (nspace name username password : GoString) (servers : List GoString)
    (annotations : GoMap GoString) (w0 w1 w2 w3 w4 : σ) (v0 v1 v2 : τ)
    (existing withData : Secret) (configJson : GoString) (err : GoError)
    (hClient : client.GetClient w0 = (none, w1))
    (hGet : client.Get nspace name w1 = (.ok existing, w2))
    (hConfig : getConfig marshal username password servers = .ok configJson)
    (hData : existing.setData DockerConfigJsonKey configJson = some withData)
    (hUpdate : client.Update nspace (withData.applyAnnotations annotations) w2 = (some err, w3))
    (hDelete : client.Delete nspace name w3 = (none, w4))
    (hOther : other.GetClient v0 = (none, v1))
    (hAbsent : getSecret other name nspace v1 = (.ok none, v2)) :
    ∃ created : Secret,
      (UpdatePassword client marshal nspace name username password servers annotations w0).calls
          = [.get nspace name, .update nspace (withData.applyAnnotations annotations),
              .delete nspace name, .create nspace created]
        ∧ (UpdatePassword client marshal nspace name username password servers annotations
            w0).outcome = .returned (client.Create nspace created w4).1
        ∧ (UpdatePassword other marshal nspace name username password servers annotations
            v0).calls = [.get nspace name, .create nspace created] := by
  have hSecret : getSecret client name nspace w1 = (.ok (some existing), w2) := by
    simp [getSecret, hGet]
  refine ⟨{ Name := name
            Annotations := if annotations.len > 0 then annotations else none
            SecretType := SecretTypeDockerConfigJson
            Data := some [(DockerConfigJsonKey, configJson)] }, ?_, ?_, ?_⟩
  · simp [UpdatePassword, hClient, hSecret, hConfig, hData, hUpdate, hDelete, createFresh_eq]
  · simp [UpdatePassword, hClient, hSecret, hConfig, hData, hUpdate, hDelete, createFresh_eq]
  · simp [UpdatePassword, hOther, hAbsent, hConfig, createFresh_eq]

theorem updatePassword_fallback_recreates_witness :
    ∃ created : Secret,
      (UpdatePassword noUpdateClient renderConfig (lit "default") (lit "regcred") (lit "AWS")
          (lit "pw") [lit "x.io"] sampleAnnotations sampleStore).calls
          = [.get (lit "default") (lit "regcred"), .update (lit "default") sampleUpdated,
              .delete (lit "default") (lit "regcred"), .create (lit "default") created]
        ∧ (UpdatePassword noUpdateClient renderConfig (lit "default") (lit "regcred")
            (lit "AWS") (lit "pw") [lit "x.io"] sampleAnnotations sampleStore).outcome
          = .returned none
        ∧ (UpdatePassword storeClient renderConfig (lit "default") (lit "regcred") (lit "AWS")
            (lit "pw") [lit "x.io"] sampleAnnotations SecretStore.empty).calls
          = [.get (lit "default") (lit "regcred"), .create (lit "default") created] := by
  have hConfig : getConfig renderConfig (lit "AWS") (lit "pw") [lit "x.io"] = .ok samplePayload := by
    decide
  obtain ⟨created, h1, h2, h3⟩ :=
    updatePassword_fallback_recreates noUpdateClient storeClient renderConfig (lit "default")
      (lit "regcred") (lit "AWS") (lit "pw") [lit "x.io"] sampleAnnotations sampleStore
      sampleStore sampleStore sampleStore
      (sampleStore.put (lit "default") (lit "regcred") none)
      SecretStore.empty SecretStore.empty SecretStore.empty
      sampleExisting { sampleExisting with Data := some [(DockerConfigJsonKey, samplePayload)] }
      samplePayload errForbidden
      rfl rfl hConfig (by decide) rfl rfl rfl rfl
  refine ⟨created, ?_, ?_, h3⟩
  · rw [h1]; rfl
  · rw [h2]
    have : created = sampleCreated := by
      have h3' := h3
      have : (UpdatePassword storeClient renderConfig (lit "default") (lit "regcred") (lit "AWS")
            (lit "pw") [lit "x.io"] sampleAnnotations SecretStore.empty).calls
          = [.get (lit "default") (lit "regcred"), .create (lit "default") sampleCreated] := by
        decide
      rw [this] at h3'
      simp at h3'
      exact h3'.symm
    subst this
    rfl

theorem Bindings.mem_keys_foldl_set {V : Type} (f : GoString → V) (xs : List GoString)
    (m : Bindings V) (k : GoString) :
    k ∈ (xs.foldl (fun acc x => acc.set x (f x)) m).keys ↔ k ∈ m.keys ∨ k ∈ xs := by
  induction xs generalizing m with
  | nil => simp
  | cons x xs ih =>
    simp only [List.foldl_cons, ih, Bindings.keys_set, List.mem_cons]
    by_cases hx : x ∈ m.keys
    · simp only [hx, if_true]
      constructor
      · rintro (h | h)
        · exact Or.inl h
        · exact Or.inr (Or.inr h)
      · rintro (h | h | h)
        · exact Or.inl h
        · subst h; exact Or.inl hx
        · exact Or.inr h
    · simp only [hx, if_false, List.mem_append, List.mem_singleton]
      tauto

theorem Bindings.wf_foldl_set {V : Type} (f : GoString → V) (xs : List GoString)
    (m : Bindings V) (h : m.WF) : (xs.foldl (fun acc x => acc.set x (f x)) m).WF := by
  induction xs generalizing m with
  | nil => simpa using h
  | cons x xs ih => exact ih _ (Bindings.wf_set m x (f x) h)

theorem Bindings.get_foldl_set_const {V : Type} (v : V) (xs : List GoString)
    (m : Bindings V) (k : GoString) :
    (xs.foldl (fun acc x => acc.set x v) m).get k = if k ∈ xs then some v else m.get k := by
  induction xs generalizing m with
  | nil => simp
  | cons x xs ih =>
    simp only [List.foldl_cons, ih, Bindings.get_set, List.mem_cons]
    by_cases h1 : k ∈ xs
    · simp [h1]
    · by_cases h2 : x = k
      · subst h2; simp
      · have : ¬ k = x := fun e => h2 e.symm
        simp [h1, h2, this]

/-- C5: the document built by `getConfig` has exactly the servers of the
list as the keys of its `auths` map, each key once, and every entry holds the
given username, the given password, the email `awsregrenew@demo.test` and
the base64 text of `username:password`; this document is what `getConfig`
serialises. -/
theorem getConfig_one_entry_per_server (marshal : config → Except GoError GoString)
    (username password : GoString) (servers : List GoString) :
    getConfig marshal username password servers
        = marshal (getConfigDocument username password servers)
      ∧ ∃ auths : Bindings auth,
          (getConfigDocument username password servers).Auths = some auths
            ∧ auths.WF
            ∧ (∀ server, server ∈ auths.keys ↔ server ∈ servers)
            ∧ (∀ server, server ∈ servers →
                auths.get server = some
                  { Username := username
                    Password := password
                    Email := lit "awsregrenew@demo.test"
                    Auth := base64Encode (username ++ lit ":" ++ password) })
            ∧ (∀ server, server ∉ servers → auths.get server = none) := by
  constructor
  · unfold getConfig
    cases marshal (getConfigDocument username password servers) <;> rfl
  · refine ⟨_, rfl, ?_, ?_, ?_, ?_⟩
    · exact Bindings.wf_foldl_set _ servers [] (by simp [Bindings.WF, Bindings.keys])
    · intro server
      rw [Bindings.mem_keys_foldl_set (fun _ => _) servers [] server]
      simp [Bindings.keys]
    · intro server h
      rw [Bindings.get_foldl_set_const _ servers [] server]
      simp [h, defaultEmail]
    · intro server h
      rw [Bindings.get_foldl_set_const _ servers [] server]
      simp [h, Bindings.get]

theorem decodeSextet_encodeSextet (n : Nat) (h : n < 64) :
    decodeSextet (encodeSextet n) = some n := by
  have key : ∀ i : Fin 64, decodeSextet (encodeSextet i.val) = some i.val := by decide
  exact key ⟨n, h⟩

theorem encodeSextet_ne_padding (n : Nat) (h : n < 64) : encodeSextet n ≠ stdPadding := by
  have key : ∀ i : Fin 64, encodeSextet i.val ≠ stdPadding := by decide
  exact key ⟨n, h⟩

theorem encodeSextet_not_skipped (n : Nat) (h : n < 64) :
    encodeSextet n ≠ 10 ∧ encodeSextet n ≠ 13 := by
  have key : ∀ i : Fin 64, encodeSextet i.val ≠ 10 ∧ encodeSextet i.val ≠ 13 := by decide
  exact key ⟨n, h⟩

theorem byte_val (a : Byte) : byte a.val = a := by
  apply Fin.ext
  simp [byte, Nat.mod_eq_of_lt a.isLt]

theorem byte_eq (a : Byte) (n : Nat) (h : n = a.val) : byte n = a := by
  subst h; exact byte_val a

theorem base64Encode_not_skipped (s : GoString) :
    ∀ c ∈ base64Encode s, c ≠ 10 ∧ c ≠ 13 := by
  induction s using base64Encode.induct with
  | case1 => simp [base64Encode]
  | case2 a =>
    have ha := a.isLt
    intro c hc
    simp only [base64Encode, List.mem_cons, List.mem_singleton, List.not_mem_nil, or_false] at hc
    rcases hc with h | h | h | h <;> subst h
    · exact encodeSextet_not_skipped _ (by omega)
    · exact encodeSextet_not_skipped _ (by omega)
    · decide
    · decide
  | case3 a b =>
    have ha := a.isLt
    have hb := b.isLt
    intro c hc
    simp only [base64Encode, List.mem_cons, List.mem_singleton, List.not_mem_nil, or_false] at hc
    rcases hc with h | h | h | h <;> subst h
    · exact encodeSextet_not_skipped _ (by omega)
    · exact encodeSextet_not_skipped _ (by omega)
    · exact encodeSextet_not_skipped _ (by omega)
    · decide
  | case4 a b c rest ih =>
    have ha := a.isLt
    have hb := b.isLt
    have hc := c.isLt
    intro x hx
    simp only [base64Encode, List.mem_cons] at hx
    rcases hx with h | h | h | h | h
    · subst h; exact encodeSextet_not_skipped _ (by omega)
    · subst h; exact encodeSextet_not_skipped _ (by omega)
    · subst h; exact encodeSextet_not_skipped _ (by omega)
    · subst h; exact encodeSextet_not_skipped _ (by omega)
    · exact ih x h

theorem base64DecodeQuanta_encode (s : GoString) :
    base64DecodeQuanta (base64Encode s) = some s := by
  induction s using base64Encode.induct with
  | case1 => simp [base64Encode, base64DecodeQuanta]
  | case2 a =>
    have ha := a.isLt
    simp only [base64Encode, base64DecodeQuanta]
    rw [decodeSextet_encodeSextet _ (by omega), decodeSextet_encodeSextet _ (by omega)]
    simp only [and_self, if_true]
    congr 1
    simp only [List.cons.injEq, and_true]
    exact byte_eq a _ (by omega)
  | case3 a b =>
    have ha := a.isLt
    have hb := b.isLt
    simp only [base64Encode, base64DecodeQuanta]
    rw [decodeSextet_encodeSextet _ (by omega), decodeSextet_encodeSextet _ (by omega)]
    have h3 := encodeSextet_ne_padding (b.val % 16 * 4) (by omega)
    simp only [h3, false_and, if_false, if_true]
    rw [decodeSextet_encodeSextet _ (by omega)]
    simp only [if_true]
    congr 1
    simp only [List.cons.injEq, and_true]
    exact ⟨byte_eq a _ (by omega), byte_eq b _ (by omega)⟩
  | case4 a b c rest ih =>
    have ha := a.isLt
    have hb := b.isLt
    have hc := c.isLt
    simp only [base64Encode, base64DecodeQuanta]
    rw [decodeSextet_encodeSextet _ (by omega), decodeSextet_encodeSextet _ (by omega)]
    have h3 := encodeSextet_ne_padding (b.val % 16 * 4 + c.val / 64) (by omega)
    have h4 := encodeSextet_ne_padding (c.val % 64) (by omega)
    simp only [h3, h4, false_and, if_false]
    rw [decodeSextet_encodeSextet _ (by omega), decodeSextet_encodeSextet _ (by omega), ih]
    simp only [Option.some.injEq, List.cons.injEq, and_true]
    exact ⟨byte_eq a _ (by omega), byte_eq b _ (by omega), byte_eq c _ (by omega)⟩

theorem base64Decode_encode (s : GoString) : base64Decode (base64Encode s) = some s := by
  unfold base64Decode
  rw [List.filter_eq_self.mpr, base64DecodeQuanta_encode]
  intro c hc
  simpa using base64Encode_not_skipped s c hc

theorem stringsCut_append (before after : GoString) (sep : Byte) (h : sep ∉ before) :
    stringsCut (before ++ sep :: after) sep = some (before, after) := by
  induction before with
  | nil => simp [stringsCut]
  | cons c before ih =>
    simp only [List.mem_cons, not_or] at h
    have hc : ¬ c = sep := fun e => h.1 e.symm
    simp [stringsCut, hc, ih h.2]

theorem stringsSplit_no_sep (s : GoString) (sep : Byte) (h : sep ∉ s) :
    stringsSplit s sep = [s] := by
  induction s with
  | nil => simp [stringsSplit]
  | cons c s ih =>
    simp only [List.mem_cons, not_or] at h
    have hc : ¬ c = sep := fun e => h.1 e.symm
    simp [stringsSplit, hc, ih h.2]

theorem stringsSplit_append (before after : GoString) (sep : Byte) (h : sep ∉ before) :
    stringsSplit (before ++ sep :: after) sep = before :: stringsSplit after sep := by
  induction before with
  | nil => simp [stringsSplit]
  | cons c before ih =>
    simp only [List.mem_cons, not_or] at h
    have hc : ¬ c = sep := fun e => h.1 e.symm
    simp [stringsSplit, hc, ih h.2]

theorem lit_colon : lit ":" = [ch ':'] := by decide

/-- C4 as amended: for a username without `:`, every password and every
server of the list, decoding the `auth` field of the server's entry from
base64 and cutting the result at its first `:` gives the username and the
password; when the password has no `:` either, splitting the result on `:`
gives exactly these two fields. -/
theorem getConfig_auth_round_trip (username password : GoString) (servers : List GoString)
    (server : GoString) (hServer : server ∈ servers) (hUser : ch ':' ∉ username) :
    ∃ entry decoded,
      (getConfigDocument username password servers).Auths.get server = some entry
        ∧ base64Decode entry.Auth = some decoded
        ∧ stringsCut decoded (ch ':') = some (username, password)
        ∧ (ch ':' ∉ password → stringsSplit decoded (ch ':') = [username, password]) := by
  refine ⟨{ Username := username, Password := password, Email := defaultEmail,
            Auth := base64Encode (username ++ lit ":" ++ password) },
          username ++ lit ":" ++ password, ?_, base64Decode_encode _, ?_, ?_⟩
  · simp only [getConfigDocument, GoMap.get]
    rw [Bindings.get_foldl_set_const _ servers [] server]
    simp [hServer]
  · rw [lit_colon, List.append_assoc, List.singleton_append]
    exact stringsCut_append username password _ hUser
  · intro hPass
    rw [lit_colon, List.append_assoc, List.singleton_append,
      stringsSplit_append username password _ hUser, stringsSplit_no_sep password _ hPass]

theorem getConfig_auth_round_trip_witness :
    lit "x.io" ∈ [lit "x.io"] ∧ ch ':' ∉ lit "AWS"
      ∧ ∃ entry decoded,
          (getConfigDocument (lit "AWS") (lit "pw") [lit "x.io"]).Auths.get (lit "x.io")
              = some entry
            ∧ base64Decode entry.Auth = some decoded
            ∧ stringsCut decoded (ch ':') = some (lit "AWS", lit "pw")
            ∧ (ch ':' ∉ lit "pw" → stringsSplit decoded (ch ':') = [lit "AWS", lit "pw"]) :=
  ⟨by decide, by decide,
    getConfig_auth_round_trip (lit "AWS") (lit "pw") [lit "x.io"] (lit "x.io") (by decide)
      (by decide)⟩

/-- C4 as stated fails for a username with a `:`: for the username `a:b` and
the password `c` the `auth` field decodes to `a:b:c`, which splits on `:`
into three fields and is cut at its first `:` into `a` and `b:c`. -/
theorem getConfig_auth_colon_in_username :
    (getConfigDocument (lit "a:b") (lit "c") [lit "x.io"]).Auths.get (lit "x.io")
        = some
          { Username := lit "a:b", Password := lit "c", Email := lit "awsregrenew@demo.test",
            Auth := lit "YTpiOmM=" }
      ∧ base64Decode (lit "YTpiOmM=") = some (lit "a:b:c")
      ∧ stringsSplit (lit "a:b:c") (ch ':') = [lit "a", lit "b", lit "c"]
      ∧ stringsSplit (lit "a:b:c") (ch ':') ≠ [lit "a:b", lit "c"]
      ∧ stringsCut (lit "a:b:c") (ch ':') = some (lit "a", lit "b:c")
      ∧ stringsCut (lit "a:b:c") (ch ':') ≠ some (lit "a:b", lit "c") := by
  decide

theorem stringsSplit_ne_nil (s : GoString) (sep : Byte) : stringsSplit s sep ≠ [] := by
  cases s with
  | nil => simp [stringsSplit]
  | cons c rest =>
    unfold stringsSplit
    split
    · simp
    · split <;> simp

theorem stringsJoin_stringsSplit (s : GoString) (sep : Byte) :
    stringsJoin (stringsSplit s sep) sep = s := by
  induction s with
  | nil => simp [stringsSplit, stringsJoin]
  | cons c rest ih =>
    unfold stringsSplit
    by_cases hc : c = sep
    · simp only [hc, if_true]
      cases hs : stringsSplit rest sep with
      | nil => exact absurd hs (stringsSplit_ne_nil rest sep)
      | cons field fields =>
        rw [hs] at ih
        simp [stringsJoin, ih]
    · simp only [hc, if_false]
      cases hs : stringsSplit rest sep with
      | nil => exact absurd hs (stringsSplit_ne_nil rest sep)
      | cons field fields =>
        rw [hs] at ih
        cases fields with
        | nil =>
          simp only [stringsJoin] at ih ⊢
          rw [ih]
        | cons f fs =>
          simp only [stringsJoin] at ih ⊢
          rw [← ih]
          simp

theorem stringsSplit_fields (s : GoString) (sep : Byte) :
    ∀ field ∈ stringsSplit s sep, sep ∉ field := by
  induction s with
  | nil => simp [stringsSplit]
  | cons c rest ih =>
    unfold stringsSplit
    by_cases hc : c = sep
    · simp only [hc, if_true, List.mem_cons]
      rintro field (h | h)
      · subst h; simp
      · exact ih field h
    · simp only [hc, if_false]
      cases hs : stringsSplit rest sep with
      | nil => exact absurd hs (stringsSplit_ne_nil rest sep)
      | cons f fs =>
        rw [hs] at ih
        simp only [List.mem_cons]
        rintro field (h | h)
        · subst h
          have hf := ih f (List.mem_cons_self _ _)
          simp only [List.mem_cons, not_or]
          exact ⟨fun e => hc e.symm, hf⟩
        · exact ih field (List.mem_cons_of_mem _ h)

theorem stringsSplit_length (s : GoString) (sep : Byte) :
    (stringsSplit s sep).length = s.count sep + 1 := by
  induction s with
  | nil => simp [stringsSplit]
  | cons c rest ih =>
    unfold stringsSplit
    by_cases hc : c = sep
    · simp [hc, ih]
    · simp only [hc, if_false]
      cases hs : stringsSplit rest sep with
      | nil => exact absurd hs (stringsSplit_ne_nil rest sep)
      | cons f fs =>
        rw [hs] at ih
        simp only [List.length_cons] at ih ⊢
        rw [List.count_cons_of_ne (fun e => hc e.symm)]
        exact ih

/-- C9: `getServerList` returns the one discovered server when the override
is empty, and otherwise the override split on `,`: the fields in their
order (joined with `,` they give the override back), none of them with a `,`
inside, one more than there are commas; in both cases the list is not empty. -/
theorem getServerList_default_or_split (getenv : GoString → GoString)
    (defaultServer : GoString) :
    (getenv envVarRegistries = [] → getServerList getenv defaultServer = [defaultServer])
      ∧ (getenv envVarRegistries ≠ [] →
          getServerList getenv defaultServer = stringsSplit (getenv envVarRegistries) (ch ',')
            ∧ stringsJoin (getServerList getenv defaultServer) (ch ',')
                = getenv envVarRegistries
            ∧ (∀ field ∈ getServerList getenv defaultServer, ch ',' ∉ field)
            ∧ (getServerList getenv defaultServer).length
                = (getenv envVarRegistries).count (ch ',') + 1)
      ∧ getServerList getenv defaultServer ≠ [] := by
  refine ⟨?_, ?_, ?_⟩
  · intro h
    simp [getServerList, h]
  · intro h
    have hs : getServerList getenv defaultServer
        = stringsSplit (getenv envVarRegistries) (ch ',') := by
      simp [getServerList, h]
    rw [hs]
    exact ⟨rfl, stringsJoin_stringsSplit _ _, stringsSplit_fields _ _, stringsSplit_length _ _⟩
  · unfold getServerList
    by_cases h : getenv envVarRegistries = []
    · simp [h]
    · simp only [h, if_false]
      exact stringsSplit_ne_nil _ _

theorem getServerList_default_or_split_witness :
    getServerList (fun _ => []) (lit "x.io") = [lit "x.io"]
      ∧ getServerList
          (fun k => if k = envVarRegistries then lit "a.io,b.io,,c.io" else [])
          (lit "x.io")
        = [lit "a.io", lit "b.io", lit "", lit "c.io"] :=
  ⟨(getServerList_default_or_split (fun _ => []) (lit "x.io")).1 rfl,
    ((getServerList_default_or_split
      (fun k => if k = envVarRegistries then lit "a.io,b.io,,c.io" else [])
      (lit "x.io")).2.1 (by decide)).1.trans (by decide)⟩

theorem Bindings.wf_foldl_set_pairs {V : Type} (src dst : Bindings V) (h : dst.WF) :
    (src.foldl (fun acc kv => acc.set kv.1 kv.2) dst).WF := by
  induction src generalizing dst with
  | nil => simpa using h
  | cons kv src ih => exact ih _ (Bindings.wf_set dst kv.1 kv.2 h)

theorem Bindings.getLast_map {V W : Type} (f : V → W) (m : Bindings V) (k : GoString) :
    Bindings.getLast (m.map (fun kv => (kv.1, f kv.2))) k = (m.getLast k).map f := by
  induction m with
  | nil => rfl
  | cons kv m ih =>
    obtain ⟨k0, v0⟩ := kv
    simp only [List.map_cons, Bindings.getLast, ih]
    cases Bindings.getLast m k with
    | some w => rfl
    | none => by_cases h0 : k0 = k <;> simp [h0]

theorem isPlain_spec (c : Byte) (h : isPlain c = true) :
    0x20 ≤ c.val ∧ c.val < 0x80 ∧ c ≠ dquote ∧ c ≠ backslash := of_decide_eq_true h

theorem unquoteFrom_plain (s : GoString) (h : s.all isPlain = true) : unquoteFrom 0 s = s := by
  induction s with
  | nil => rfl
  | cons c s ih =>
    simp only [List.all_cons, Bool.and_eq_true] at h
    have hc := isPlain_spec c h.1
    simp only [unquoteFrom, if_neg hc.2.2.2, if_pos hc.2.1, ih h.2, List.singleton_append]

theorem unquote_plain (s : GoString) (h : s.all isPlain = true) : unquote s = s :=
  unquoteFrom_plain s h

theorem run_plain (ps : ParseState) (key : GoString) (members : List (GoString × JsonMember))
    (body literal : GoString) (h : body.all isPlain = true) :
    body.foldl Scanner.run (Scanner.inObject .inString ps literal key members)
      = Scanner.inObject .inString ps (literal ++ body) key members := by
  induction body generalizing literal with
  | nil => simp
  | cons c body ih =>
    simp only [List.all_cons, Bool.and_eq_true] at h
    have hc := isPlain_spec c h.1
    have h20 : ¬ c.val < 0x20 := by omega
    have hstep : Scanner.run (Scanner.inObject .inString ps literal key members) c
        = Scanner.inObject .inString ps (literal ++ [c]) key members := by
      simp only [Scanner.run, Scanner.inObject, stateInString, if_neg hc.2.2.1,
        if_neg hc.2.2.2, if_neg h20]
    rw [List.foldl_cons, hstep, ih _ h.2, List.append_assoc, List.singleton_append]

theorem run_open_key (literal key0 : GoString) (members : List (GoString × JsonMember)) :
    Scanner.run (Scanner.inObject .beginString .parseObjectKey literal key0 members) dquote
      = Scanner.inObject .inString .parseObjectKey [] key0 members := by rfl

theorem run_open_first_key (literal key0 : GoString) (members : List (GoString × JsonMember)) :
    Scanner.run (Scanner.inObject .beginStringOrEmpty .parseObjectKey literal key0 members)
        dquote
      = Scanner.inObject .inString .parseObjectKey [] key0 members := by rfl

theorem run_colon (literal key : GoString) (members : List (GoString × JsonMember)) :
    Scanner.run (Scanner.inObject .endValue .parseObjectKey literal key members) (ch ':')
      = Scanner.inObject .beginValue .parseObjectValue literal key members := by rfl

theorem run_open_value (literal key : GoString) (members : List (GoString × JsonMember)) :
    Scanner.run (Scanner.inObject .beginValue .parseObjectValue literal key members) dquote
      = Scanner.inObject .inString .parseObjectValue [] key members := by rfl

theorem run_comma (literal key : GoString) (members : List (GoString × JsonMember)) :
    Scanner.run (Scanner.inObject .endValue .parseObjectValue literal key members) (ch ',')
      = Scanner.inObject .beginString .parseObjectKey literal key members := by rfl

theorem run_close_key (literal key0 : GoString) (members : List (GoString × JsonMember)) :
    Scanner.run (Scanner.inObject .inString .parseObjectKey literal key0 members) dquote
      = Scanner.inObject .endValue .parseObjectKey literal (unquote literal) members := by rfl

theorem run_close_value (literal key : GoString) (members : List (GoString × JsonMember)) :
    Scanner.run (Scanner.inObject .inString .parseObjectValue literal key members) dquote
      = Scanner.inObject .endValue .parseObjectValue literal key
          (members ++ [(key, .string (unquote literal))]) := by rfl

theorem run_close_object (literal key : GoString) (members : List (GoString × JsonMember)) :
    Scanner.run (Scanner.inObject .endValue .parseObjectValue literal key members) (ch '}')
      = { step := .endTop, endTop := true, parseState := [], err := false, literal := literal,
          key := key, members := members, top := some (.object members) } := by rfl

theorem run_close_empty_object :
    Scanner.run (Scanner.inObject .beginStringOrEmpty .parseObjectKey [] [] []) (ch '}')
      = { step := .endTop, endTop := true, parseState := [], err := false, literal := [],
          key := [], members := [], top := some (.object []) } := by rfl

theorem run_open_object :
    Scanner.run Scanner.reset (ch '{')
      = Scanner.inObject .beginStringOrEmpty .parseObjectKey [] [] [] := by rfl

theorem run_member (step : ScanStep) (hstep : step = .beginString ∨ step = .beginStringOrEmpty)
    (literal key0 key value : GoString) (members : List (GoString × JsonMember))
    (hk : key.all isPlain = true) (hv : value.all isPlain = true) :
    (renderString key ++ ch ':' :: renderString value).foldl Scanner.run
        (Scanner.inObject step .parseObjectKey literal key0 members)
      = Scanner.inObject .endValue .parseObjectValue value key
          (members ++ [(key, .string value)]) := by
  have hopen : Scanner.run (Scanner.inObject step .parseObjectKey literal key0 members) dquote
      = Scanner.inObject .inString .parseObjectKey [] key0 members := by
    rcases hstep with h | h
    · rw [h]; exact run_open_key _ _ _
    · rw [h]; exact run_open_first_key _ _ _
  simp only [renderString, List.cons_append, List.foldl_cons, List.foldl_append, List.foldl_nil,
    hopen, run_plain _ _ _ _ _ hk, run_plain _ _ _ _ _ hv, List.nil_append, run_close_key,
    run_colon, run_open_value, run_close_value, unquote_plain _ hk, unquote_plain _ hv]

theorem run_members (pairs : List (GoString × GoString)) (hne : pairs ≠ [])
    (hPlain : ∀ kv ∈ pairs, kv.1.all isPlain = true ∧ kv.2.all isPlain = true)
    (step : ScanStep) (hstep : step = .beginString ∨ step = .beginStringOrEmpty)
    (literal key0 : GoString) (members : List (GoString × JsonMember)) :
    ∃ literal' key',
      (stringsJoin (pairs.map (fun kv => renderString kv.1 ++ ch ':' :: renderString kv.2))
          (ch ',')).foldl Scanner.run
          (Scanner.inObject step .parseObjectKey literal key0 members)
        = Scanner.inObject .endValue .parseObjectValue literal' key'
            (members ++ pairs.map (fun kv => (kv.1, JsonMember.string kv.2))) := by
  induction pairs generalizing step literal key0 members with
  | nil => exact absurd rfl hne
  | cons kv rest ih =>
    have hkv := hPlain kv (List.mem_cons_self _ _)
    cases rest with
    | nil =>
      refine ⟨kv.2, kv.1, ?_⟩
      simp only [List.map_cons, List.map_nil, stringsJoin]
      exact run_member step hstep literal key0 kv.1 kv.2 members hkv.1 hkv.2
    | cons kv' more =>
      obtain ⟨literal', key', h⟩ :=
        ih (by simp) (fun x hx => hPlain x (List.mem_cons_of_mem _ hx)) .beginString
          (Or.inl rfl) kv.2 kv.1 (members ++ [(kv.1, .string kv.2)])
      refine ⟨literal', key', ?_⟩
      have hm := run_member step hstep literal key0 kv.1 kv.2 members hkv.1 hkv.2
      simp only [List.map_cons, stringsJoin, List.foldl_append, List.foldl_cons] at h hm ⊢
      rw [hm, run_comma, h]
      simp

theorem checkValid_renderObject (pairs : List (GoString × GoString))
    (hPlain : ∀ kv ∈ pairs, kv.1.all isPlain = true ∧ kv.2.all isPlain = true) :
    checkValid (renderObject pairs)
      = some (.object (pairs.map (fun kv => (kv.1, JsonMember.string kv.2)))) := by
  have hFinal : ∀ (literal key : GoString) (members : List (GoString × JsonMember)),
      (let s := Scanner.eof
          { step := .endTop, endTop := true, parseState := [], err := false,
            literal := literal, key := key, members := members,
            top := some (.object members) }
        if s.err then none else s.top) = some (JsonValue.object members) := by
    intro literal key members
    rfl
  by_cases hne : pairs = []
  · subst hne
    simp only [checkValid, renderObject, List.map_nil, stringsJoin, List.nil_append,
      List.foldl_cons, List.foldl_nil, run_open_object, run_close_empty_object]
    exact hFinal [] [] []
  · obtain ⟨literal', key', h⟩ :=
      run_members pairs hne hPlain .beginStringOrEmpty (Or.inr rfl) [] [] []
    simp only [checkValid, renderObject, List.foldl_cons, List.foldl_append, List.foldl_nil,
      run_open_object, h, run_close_object, List.nil_append]
    exact hFinal _ _ _

theorem jsonUnmarshal_string_object (value : GoString)
    (members : List (GoString × JsonMember))
    (hValid : checkValid value = some (.object members))
    (hStrings : ∀ kv ∈ members, ∃ s, kv.2 = .string s) :
    ∃ m : Bindings GoString,
      jsonUnmarshal value = .ok (some m)
        ∧ m.WF
        ∧ (∀ k s, Bindings.getLast members k = some (.string s) → m.get k = some s)
        ∧ (∀ k, Bindings.getLast members k = none → m.get k = none) := by
  have hAll : members.all (fun kv => kv.2.storeString.2) = true := by
    rw [List.all_eq_true]
    intro kv hkv
    obtain ⟨s, hs⟩ := hStrings kv hkv
    simp [hs, JsonMember.storeString]
  have hGet : ∀ k,
      (members.foldl (fun (m : Bindings GoString) kv => m.set kv.1 kv.2.storeString.1) []).get k
        = ((Bindings.getLast members k).map (fun v => v.storeString.1)).or none := by
    intro k
    have h := Bindings.get_foldl_set
      (members.map (fun kv => (kv.1, kv.2.storeString.1))) ([] : Bindings GoString) k
    rw [List.foldl_map] at h
    rw [h, Bindings.getLast_map (fun v : JsonMember => v.storeString.1)]
    rfl
  refine ⟨members.foldl (fun m kv => m.set kv.1 kv.2.storeString.1) [], ?_, ?_, ?_, ?_⟩
  · simp [jsonUnmarshal, hValid, hAll]
  · have h := Bindings.wf_foldl_set_pairs
      (members.map (fun kv => (kv.1, kv.2.storeString.1))) ([] : Bindings GoString)
      (by simp [Bindings.WF, Bindings.keys])
    rwa [List.foldl_map] at h
  · intro k s hk
    rw [hGet, hk]
    simp [JsonMember.storeString]
  · intro k hk
    rw [hGet, hk]
    simp

/-- C10 as amended: `getSecretAnnotations` returns an empty map and no error
for the empty value; for a valid JSON object whose member values are all
strings it returns, with no error, the map of the members (each key bound to
the value of its last member), so for the JSON text of any object with plain
keys and values it returns the map of that object; for a non-empty value
that is not valid JSON it returns an error. -/
theorem getSecretAnnotations_parses_string_object (getenv : GoString → GoString) :
    (getenv envVarSecretAnnotations = [] → getSecretAnnotations getenv = .ok (some []))
      ∧ (∀ members : List (GoString × JsonMember),
          checkValid (getenv envVarSecretAnnotations) = some (.object members) →
          (∀ kv ∈ members, ∃ s, kv.2 = .string s) →
          ∃ m : Bindings GoString,
            getSecretAnnotations getenv = .ok (some m)
              ∧ m.WF
              ∧ (∀ k s, Bindings.getLast members k = some (.string s) → m.get k = some s)
              ∧ (∀ k, Bindings.getLast members k = none → m.get k = none))
      ∧ (∀ pairs : List (GoString × GoString),
          (∀ kv ∈ pairs, kv.1.all isPlain = true ∧ kv.2.all isPlain = true) →
          getenv envVarSecretAnnotations = renderObject pairs →
          ∃ m : Bindings GoString,
            getSecretAnnotations getenv = .ok (some m)
              ∧ m.WF
              ∧ (∀ k, m.get k = Bindings.getLast pairs k))
      ∧ (getenv envVarSecretAnnotations ≠ [] →
          checkValid (getenv envVarSecretAnnotations) = none →
          getSecretAnnotations getenv = .error .syntaxError) := by
  have hObject : ∀ members : List (GoString × JsonMember),
      checkValid (getenv envVarSecretAnnotations) = some (.object members) →
      (∀ kv ∈ members, ∃ s, kv.2 = .string s) →
      ∃ m : Bindings GoString,
        getSecretAnnotations getenv = .ok (some m)
          ∧ m.WF
          ∧ (∀ k s, Bindings.getLast members k = some (.string s) → m.get k = some s)
          ∧ (∀ k, Bindings.getLast members k = none → m.get k = none) := by
    intro members hValid hStrings
    have hne : getenv envVarSecretAnnotations ≠ [] := by
      intro h
      rw [h] at hValid
      have hEmpty : checkValid [] = none := by decide
      rw [hEmpty] at hValid
      cases hValid
    obtain ⟨m, h1, h2, h3, h4⟩ := jsonUnmarshal_string_object _ members hValid hStrings
    exact ⟨m, by simp [getSecretAnnotations, hne, h1], h2, h3, h4⟩
  refine ⟨?_, hObject, ?_, ?_⟩
  · intro h
    simp [getSecretAnnotations, h]
  · intro pairs hPlain hValue
    have hValid := checkValid_renderObject pairs hPlain
    rw [← hValue] at hValid
    obtain ⟨m, h1, h2, h3, h4⟩ := hObject _ hValid (by
      intro kv hkv
      obtain ⟨p, -, hp⟩ := List.mem_map.mp hkv
      exact ⟨p.2, by rw [← hp]⟩)
    refine ⟨m, h1, h2, ?_⟩
    intro k
    have hLast := Bindings.getLast_map JsonMember.string pairs k
    cases hk : Bindings.getLast pairs k with
    | none =>
      rw [hk] at hLast
      exact h4 k hLast
    | some v =>
      rw [hk] at hLast
      exact h3 k v hLast
  · intro hne hInvalid
    simp [getSecretAnnotations, hne, jsonUnmarshal, hInvalid]

theorem getSecretAnnotations_parses_string_object_witness :
    checkValid (lit "\x7b\"b\": \"3\", \"c\": \"4\"\x7d")
        = some (.object [(lit "b", .string (lit "3")), (lit "c", .string (lit "4"))])
      ∧ ∃ m : Bindings GoString,
          getSecretAnnotations (fun _ => lit "\x7b\"b\": \"3\", \"c\": \"4\"\x7d")
              = .ok (some m)
            ∧ m.get (lit "b") = some (lit "3")
            ∧ m.get (lit "c") = some (lit "4")
            ∧ m.get (lit "a") = none := by
  have hValid : checkValid (lit "\x7b\"b\": \"3\", \"c\": \"4\"\x7d")
      = some (.object [(lit "b", .string (lit "3")), (lit "c", .string (lit "4"))]) := by
    decide
  obtain ⟨m, h1, -, h3, h4⟩ :=
    (getSecretAnnotations_parses_string_object
      (fun _ => lit "\x7b\"b\": \"3\", \"c\": \"4\"\x7d")).2.1 _ hValid (by
        intro kv hkv
        simp only [List.mem_cons, List.mem_singleton, List.not_mem_nil, or_false] at hkv
        rcases hkv with h | h <;> subst h <;> exact ⟨_, rfl⟩)
  exact ⟨hValid, m, h1, h3 _ _ (by decide), h3 _ _ (by decide), h4 _ (by decide)⟩

/-- C10 as stated fails for a valid JSON object with a value that is not a
string: the scanner accepts the text, an object with the one member `a`, a
number, and `getSecretAnnotations` returns an error and no map. -/
theorem getSecretAnnotations_number_value :
    checkValid (lit "\x7b\"a\":1\x7d") = some (.object [(lit "a", .number)])
      ∧ getSecretAnnotations (fun _ => lit "\x7b\"a\":1\x7d") = .error .unmarshalTypeError := by
  decide

theorem Secret.get_applyAnnotations_last (secret : Secret) (annotations : GoMap GoString)
    (k : GoString) :
    (secret.applyAnnotations annotations).Annotations.get k
      = ((annotations.getD []).getLast k).or (secret.Annotations.get k) := by
  unfold Secret.applyAnnotations
  split
  · cases annotations with
    | none =>
      cases hE : secret.Annotations <;>
        simp [GoMap.get, Bindings.setAll, Bindings.getLast, hE, Bindings.get]
    | some b =>
      simp only [GoMap.get, Bindings.setAll, Bindings.get_foldl_set, Option.getD_some]
      cases hE : secret.Annotations <;> simp [Bindings.get]
  · rename_i hlen
    cases annotations with
    | none => simp [Bindings.getLast]
    | some b =>
      cases b with
      | nil => simp [Bindings.getLast]
      | cons kv b => simp [GoMap.len] at hlen

theorem Secret.applyAnnotations_name (secret : Secret) (annotations : GoMap GoString) :
    (secret.applyAnnotations annotations).Name = secret.Name := by
  unfold Secret.applyAnnotations
  split <;> rfl

theorem Secret.applyAnnotations_data (secret : Secret) (annotations : GoMap GoString) :
    (secret.applyAnnotations annotations).Data = secret.Data := by
  unfold Secret.applyAnnotations
  split <;> rfl

theorem SecretStore.put_same (w : SecretStore) (nspace name : GoString)
    (secret : Option Secret) : (w.put nspace name secret) nspace name = secret := by
  simp [SecretStore.put]

theorem updatePassword_storeClient_update (marshal : config → Except GoError GoString)
    (nspace name username password : GoString) (servers : List GoString)
    (annotations : GoMap GoString) (w : SecretStore) (existing : Secret)
    (configJson : GoString) (data : Bindings GoString)
    (hHolds : w nspace name = some existing) (hName : existing.Name = name)
    (hConfig : getConfig marshal username password servers = .ok configJson)
    (hData : existing.Data = some data) :
    UpdatePassword storeClient marshal nspace name username password servers annotations w
      = ⟨.returned none,
          [.get nspace name,
            .update nspace
              (({ existing with Data := some (data.set DockerConfigJsonKey configJson) }
                : Secret).applyAnnotations annotations)],
          w.put nspace name
            (some (({ existing with Data := some (data.set DockerConfigJsonKey configJson) }
              : Secret).applyAnnotations annotations))⟩ := by
  have hSecret : getSecret storeClient name nspace w = (.ok (some existing), w) := by
    simp [getSecret, storeClient, hHolds]
  have hSet : existing.setData DockerConfigJsonKey configJson
      = some { existing with Data := some (data.set DockerConfigJsonKey configJson) } := by
    simp [Secret.setData, hData]
  have hUpdate :
      storeClient.Update nspace
        (({ existing with Data := some (data.set DockerConfigJsonKey configJson) }
          : Secret).applyAnnotations annotations) w
        = (none, w.put nspace name
            (some (({ existing with Data := some (data.set DockerConfigJsonKey configJson) }
              : Secret).applyAnnotations annotations))) := by
    simp [storeClient, Secret.applyAnnotations_name, hName, hHolds]
  unfold UpdatePassword
  have hClient : storeClient.GetClient w = (none, w) := rfl
  simp only [hClient, hSecret, hConfig, hSet, hUpdate]

/-- C6: in a namespace whose store holds the secret, two calls of
`UpdatePassword` in succession with the same input, against a store that
serves every request, end the same way and leave the stored secret after the
second call with the same payload and the same annotations as after the
first; when the document serialises and the secret has a `Data` map, both
calls return no error and the payload is the new document. -/
theorem updatePassword_twice_is_stable (marshal : config → Except GoError GoString)
    (nspace name username password : GoString) (servers : List GoString)
    (annotations : GoMap GoString) (w0 : SecretStore) (existing : Secret)
    (hHolds : w0 nspace name = some existing) (hName : existing.Name = name) :
    ∃ first second : Secret,
      (UpdatePassword storeClient marshal nspace name username password servers annotations
          w0).world nspace name = some first
        ∧ (UpdatePassword storeClient marshal nspace name username password servers annotations
            (UpdatePassword storeClient marshal nspace name username password servers
              annotations w0).world).world nspace name = some second
        ∧ second.Data = first.Data
        ∧ (∀ k, second.Annotations.get k = first.Annotations.get k)
        ∧ (UpdatePassword storeClient marshal nspace name username password servers annotations
            (UpdatePassword storeClient marshal nspace name username password servers
              annotations w0).world).outcome
          = (UpdatePassword storeClient marshal nspace name username password servers
              annotations w0).outcome
        ∧ (∀ configJson data,
            getConfig marshal username password servers = .ok configJson →
            existing.Data = some data →
            (UpdatePassword storeClient marshal nspace name username password servers
                annotations w0).outcome = .returned none
              ∧ first.Data.get DockerConfigJsonKey = some configJson) := by
  have hSecret : getSecret storeClient name nspace w0 = (.ok (some existing), w0) := by
    simp [getSecret, storeClient, hHolds]
  have hClient : storeClient.GetClient w0 = (none, w0) := rfl
  cases hConfig : getConfig marshal username password servers with
  | error err =>
    have hRun :
        UpdatePassword storeClient marshal nspace name username password servers annotations w0
          = ⟨.returned (some err), [.get nspace name], w0⟩ := by
      unfold UpdatePassword
      simp only [hClient, hSecret, hConfig]
    refine ⟨existing, existing, ?_, ?_, rfl, fun _ => rfl, ?_, ?_⟩
    · rw [hRun]; exact hHolds
    · rw [hRun]; simp only; rw [hRun]; exact hHolds
    · rw [hRun]; simp only; rw [hRun]
    · intro configJson data h
      cases h
  | ok configJson =>
    cases hData : existing.Data with
    | none =>
      have hRun :
          UpdatePassword storeClient marshal nspace name username password servers annotations
              w0
            = ⟨.panicked, [.get nspace name], w0⟩ := by
        unfold UpdatePassword
        simp only [hClient, hSecret, hConfig, Secret.setData, hData]
      refine ⟨existing, existing, ?_, ?_, rfl, fun _ => rfl, ?_, ?_⟩
      · rw [hRun]; exact hHolds
      · rw [hRun]; simp only; rw [hRun]; exact hHolds
      · rw [hRun]; simp only; rw [hRun]
      · intro cj data _ h
        cases h
    | some data =>
      have hRun1 :=
        updatePassword_storeClient_update marshal nspace name username password servers
          annotations w0 existing configJson data hHolds hName hConfig hData
      have hRun2 :=
        updatePassword_storeClient_update marshal nspace name username password servers
          annotations
          (w0.put nspace name
            (some (({ existing with Data := some (data.set DockerConfigJsonKey configJson) }
              : Secret).applyAnnotations annotations)))
          (({ existing with Data := some (data.set DockerConfigJsonKey configJson) }
            : Secret).applyAnnotations annotations)
          configJson (data.set DockerConfigJsonKey configJson)
          (SecretStore.put_same _ _ _ _)
          (by rw [Secret.applyAnnotations_name]; exact hName) hConfig
          (by rw [Secret.applyAnnotations_data])
      refine ⟨({ existing with Data := some (data.set DockerConfigJsonKey configJson) }
                : Secret).applyAnnotations annotations,
              ({ (({ existing with Data := some (data.set DockerConfigJsonKey configJson) }
                    : Secret).applyAnnotations annotations) with
                  Data := some ((data.set DockerConfigJsonKey configJson).set
                    DockerConfigJsonKey configJson) } : Secret).applyAnnotations annotations,
              ?_, ?_, ?_, ?_, ?_, ?_⟩
      · rw [hRun1]; exact SecretStore.put_same _ _ _ _
      · rw [hRun1]; simp only; rw [hRun2]; exact SecretStore.put_same _ _ _ _
      · simp only [Secret.applyAnnotations_data, Bindings.set_set]
      · intro k
        simp only [Secret.get_applyAnnotations_last, Secret.applyAnnotations_data]
        cases Bindings.getLast (annotations.getD []) k <;> simp
      · rw [hRun1]; simp only; rw [hRun2]
      · intro cj d hcj hd
        cases hcj
        cases hd
        refine ⟨by rw [hRun1], ?_⟩
        simp [Secret.applyAnnotations_data, GoMap.get, Bindings.get_set]

theorem updatePassword_twice_is_stable_witness :
    sampleStore (lit "default") (lit "regcred") = some sampleExisting
      ∧ sampleExisting.Name = lit "regcred"
      ∧ (UpdatePassword storeClient renderConfig (lit "default") (lit "regcred") (lit "AWS")
            (lit "pw") [lit "x.io"] sampleAnnotations sampleStore).world (lit "default")
            (lit "regcred") = some sampleUpdated
      ∧ (UpdatePassword storeClient renderConfig (lit "default") (lit "regcred") (lit "AWS")
            (lit "pw") [lit "x.io"] sampleAnnotations
            (UpdatePassword storeClient renderConfig (lit "default") (lit "regcred")
              (lit "AWS") (lit "pw") [lit "x.io"] sampleAnnotations sampleStore).world).world
            (lit "default") (lit "regcred") = some sampleUpdated := by
  have hFirst :
      (UpdatePassword storeClient renderConfig (lit "default") (lit "regcred") (lit "AWS")
          (lit "pw") [lit "x.io"] sampleAnnotations sampleStore).world (lit "default")
          (lit "regcred") = some sampleUpdated := by
    decide
  obtain ⟨first, second, h1, h2, h3, h4, -, -⟩ :=
    updatePassword_twice_is_stable renderConfig (lit "default") (lit "regcred") (lit "AWS")
      (lit "pw") [lit "x.io"] sampleAnnotations sampleStore sampleExisting (by decide)
      (by decide)
  refine ⟨by decide, by decide, hFirst, ?_⟩
  have : (UpdatePassword storeClient renderConfig (lit "default") (lit "regcred") (lit "AWS")
            (lit "pw") [lit "x.io"] sampleAnnotations
            (UpdatePassword storeClient renderConfig (lit "default") (lit "regcred")
              (lit "AWS") (lit "pw") [lit "x.io"] sampleAnnotations sampleStore).world).world
            (lit "default") (lit "regcred") = some sampleUpdated := by
    decide
  exact this

/-- X1: when the existing secret has a nil `Data` map, `UpdatePassword`
panics at the assignment of the payload, after the lookup and before any
update, delete or create. -/
theorem updatePassword_nil_data_panics {σ : Type} (client : SecretsClient σ)
    (marshal : config → Except GoError GoString)
    (nspace name username password : GoString) (servers : List GoString)
    (annotations : GoMap GoString) (w0 w1 w2 : σ) (existing : Secret) (configJson : GoString)
    (hClient : client.GetClient w0 = (none, w1))
    (hGet : client.Get nspace name w1 = (.ok existing, w2))
    (hConfig : getConfig marshal username password servers = .ok configJson)
    (hData : existing.Data = none) :
    (UpdatePassword client marshal nspace name username password servers annotations
        w0).outcome = .panicked
      ∧ (UpdatePassword client marshal nspace name username password servers annotations
          w0).calls = [.get nspace name]
      ∧ (UpdatePassword client marshal nspace name username password servers annotations
          w0).world = w2 := by
  have hSecret : getSecret client name nspace w1 = (.ok (some existing), w2) := by
    simp [getSecret, hGet]
  simp [UpdatePassword, hClient, hSecret, hConfig, Secret.setData, hData]

theorem updatePassword_nil_data_panics_witness :
    storeClient.Get (lit "default") (lit "regcred") sampleStoreWithoutData
        = (.ok sampleWithoutData, sampleStoreWithoutData)
      ∧ sampleWithoutData.Data = none
      ∧ (UpdatePassword storeClient renderConfig (lit "default") (lit "regcred") (lit "AWS")
          (lit "pw") [lit "x.io"] sampleAnnotations sampleStoreWithoutData).outcome = .panicked
      ∧ (UpdatePassword storeClient renderConfig (lit "default") (lit "regcred") (lit "AWS")
          (lit "pw") [lit "x.io"] sampleAnnotations sampleStoreWithoutData).calls
          = [.get (lit "default") (lit "regcred")] :=
  have h :=
    updatePassword_nil_data_panics storeClient renderConfig (lit "default") (lit "regcred")
      (lit "AWS") (lit "pw") [lit "x.io"] sampleAnnotations sampleStoreWithoutData
      sampleStoreWithoutData sampleStoreWithoutData sampleWithoutData samplePayload rfl rfl
      (by decide) rfl
  ⟨rfl, rfl, h.1, h.2.1⟩

/-- X2: without a value for `DOCKER_SECRET_NAME`, `main` panics before it
calls any collaborator: no namespace is attempted and no API call is issued. -/
theorem main_requires_secret_name {σ : Type} (env : Environment σ) (client : SecretsClient σ)
    (marshal : config → Except GoError GoString) (w0 : σ)
    (hName : env.Getenv envVarAwsSecret = []) :
    (main env client marshal w0).panic = some .requiredVariable
      ∧ (main env client marshal w0).progress.attempts = []
      ∧ (main env client marshal w0).progress.calls = [] := by
  simp [main, hName, Progress.start]

theorem main_requires_secret_name_witness :
    sampleEnvironmentWithoutName.Getenv envVarAwsSecret = []
      ∧ (main sampleEnvironmentWithoutName storeClient renderConfig sampleStore).panic
          = some .requiredVariable :=
  ⟨rfl, (main_requires_secret_name sampleEnvironmentWithoutName storeClient renderConfig
    sampleStore rfl).1⟩

theorem stringsContains_self (substr : GoString) : stringsContains substr substr = true := by
  cases substr with
  | nil => rfl
  | cons c s =>
    simp only [stringsContains, Bool.or_eq_true]
    exact Or.inl (List.isPrefixOf_iff_prefix.mpr (List.prefix_refl _))

theorem stringsContains_append (before substr : GoString) :
    stringsContains (before ++ substr) substr = true := by
  induction before with
  | nil => exact stringsContains_self substr
  | cons c before ih =>
    rw [List.cons_append, stringsContains, ih, Bool.or_true]

theorem errNotFound_contains (name : GoString) :
    stringsContains (errNotFound name).Error (lit "not found") = true := by
  have h : (errNotFound name).Error
      = (lit "secrets \"" ++ name ++ lit "\" ") ++ lit "not found" := by
    have hs : lit "\" not found" = lit "\" " ++ lit "not found" := by decide
    simp only [errNotFound, hs, List.append_assoc]
  rw [h]
  exact stringsContains_append _ _

/-- C8 as amended: a lookup error whose text contains `not found`, as the
error of the API server for a secret that does not exist does for every
name, makes `getSecret` return no secret and no error; every lookup error
whose text does not contain `not found` is returned by `getSecret`, and
`UpdatePassword` then returns it after the lookup, without any create,
update or delete. -/
theorem getSecret_not_found_or_fatal {σ : Type} (client : SecretsClient σ)
    (marshal : config → Except GoError GoString)
    (nspace name username password : GoString) (servers : List GoString)
    (annotations : GoMap GoString) (w0 w1 w2 : σ) (err : GoError)
    (hClient : client.GetClient w0 = (none, w1))
    (hGet : client.Get nspace name w1 = (.error err, w2)) :
    (stringsContains err.Error (lit "not found") = true →
        getSecret client name nspace w1 = (.ok none, w2))
      ∧ (∀ missing : GoString,
          IsNotFound (errNotFound missing) = true
            ∧ stringsContains (errNotFound missing).Error (lit "not found") = true)
      ∧ (stringsContains err.Error (lit "not found") = false →
        getSecret client name nspace w1 = (.error err, w2)
          ∧ (UpdatePassword client marshal nspace name username password servers annotations
              w0).outcome = .returned (some err)
          ∧ (UpdatePassword client marshal nspace name username password servers annotations
              w0).calls = [.get nspace name]
          ∧ (UpdatePassword client marshal nspace name username password servers annotations
              w0).world = w2) := by
  refine ⟨?_, ?_, ?_⟩
  · intro h
    simp [getSecret, hGet, h]
  · intro missing
    exact ⟨rfl, errNotFound_contains missing⟩
  · intro h
    have hSecret : getSecret client name nspace w1 = (.error err, w2) := by
      simp [getSecret, hGet, h]
    simp [UpdatePassword, hClient, hSecret]

theorem getSecret_not_found_or_fatal_witness :
    refusedClient.GetClient () = (none, ())
      ∧ refusedClient.Get (lit "default") (lit "regcred") () = (.error errConnectionRefused, ())
      ∧ stringsContains errConnectionRefused.Error (lit "not found") = false
      ∧ getSecret refusedClient (lit "regcred") (lit "default") ()
          = (.error errConnectionRefused, ())
      ∧ (UpdatePassword refusedClient renderConfig (lit "default") (lit "regcred") (lit "AWS")
            (lit "pw") [lit "x.io"] sampleAnnotations ()).outcome
          = .returned (some errConnectionRefused)
      ∧ (UpdatePassword refusedClient renderConfig (lit "default") (lit "regcred") (lit "AWS")
            (lit "pw") [lit "x.io"] sampleAnnotations ()).calls
          = [.get (lit "default") (lit "regcred")] :=
  have h :=
    (getSecret_not_found_or_fatal refusedClient renderConfig (lit "default") (lit "regcred")
      (lit "AWS") (lit "pw") [lit "x.io"] sampleAnnotations () () ()
      errConnectionRefused rfl rfl).2.2 (by decide)
  ⟨rfl, rfl, by decide, h.1, h.2.1, h.2.2.1⟩

/-- C8 as stated fails for a lookup failure that is not a not-found outcome
and has `not found` in its text: the lookup is refused with the status 403,
for a role that does not exist; `getSecret` returns no secret and no error,
and `UpdatePassword` goes on to create the secret and returns no error. -/
theorem getSecret_forbidden_taken_for_absent :
    IsNotFound errForbiddenRoleNotFound = false
      ∧ noGetClient.Get (lit "default") (lit "regcred") SecretStore.empty
          = (.error errForbiddenRoleNotFound, SecretStore.empty)
      ∧ getSecret noGetClient (lit "regcred") (lit "default") SecretStore.empty
          = (.ok none, SecretStore.empty)
      ∧ (UpdatePassword noGetClient renderConfig (lit "default") (lit "regcred") (lit "AWS")
            (lit "pw") [lit "x.io"] sampleAnnotations SecretStore.empty).calls
          = [.get (lit "default") (lit "regcred"), .create (lit "default") sampleCreated]
      ∧ (UpdatePassword noGetClient renderConfig (lit "default") (lit "regcred") (lit "AWS")
            (lit "pw") [lit "x.io"] sampleAnnotations SecretStore.empty).outcome
          = .returned none :=
  ⟨by decide, rfl, by
    have h : stringsContains errForbiddenRoleNotFound.Error (lit "not found") = true := by
      decide
    simp [getSecret, noGetClient, h], by decide, by decide⟩

/-- C3: a run of `main` that the claim does not describe. The namespaces are
`default` and `app`, and `default` holds a secret with a nil `Data` map:
the call of `UpdatePassword` for `default` panics, the panic ends `main`, and
`app` is never attempted. -/
theorem main_stops_at_nil_data :
    (UpdatePassword storeClient renderConfig (lit "default") (lit "regcred") (lit "AWS")
        (lit "pw") [lit "x.io"] (some []) sampleStoreWithoutData).outcome = .panicked
      ∧ (main sampleEnvironment storeClient renderConfig sampleStoreWithoutData).progress.attempts
          = [(lit "default", .panicked)]
      ∧ (main sampleEnvironment storeClient renderConfig sampleStoreWithoutData).progress.calls
          = [.get (lit "default") (lit "regcred")]
      ∧ (main sampleEnvironment storeClient renderConfig sampleStoreWithoutData).panic
          = some .nilMapAssignment
      ∧ (UpdatePassword storeClient renderConfig (lit "app") (lit "regcred") (lit "AWS")
          (lit "pw") [lit "x.io"] (some []) sampleStoreWithoutData).calls
          = [.get (lit "app") (lit "regcred"), .create (lit "app") sampleCreatedPlain] := by
  decide

theorem updateNamespaces_eachNamespaceOnce {σ : Type} (upsert : GoString → σ → Run σ)
    (namespaces : List GoString) (st0 : Progress σ)
    (hReturn : ∀ a ∈ eachNamespaceOnce upsert namespaces st0.world, a.2 ≠ .panicked) :
    (updateNamespaces upsert namespaces st0).attempts
        = st0.attempts ++ eachNamespaceOnce upsert namespaces st0.world
      ∧ (updateNamespaces upsert namespaces st0).panicked = st0.panicked
      ∧ ((updateNamespaces upsert namespaces st0).failed = true
          ↔ st0.failed = true
            ∨ ∃ a ∈ eachNamespaceOnce upsert namespaces st0.world,
                ∃ err, a.2 = .returned (some err)) := by
  induction namespaces generalizing st0 with
  | nil => simp [updateNamespaces, eachNamespaceOnce]
  | cons ns rest ih =>
    simp only [eachNamespaceOnce, List.mem_cons, forall_eq_or_imp] at hReturn
    obtain ⟨hHead, hRest⟩ := hReturn
    unfold updateNamespaces
    simp only [eachNamespaceOnce]
    cases hOut : (upsert ns st0.world).outcome with
    | panicked => exact absurd hOut hHead
    | returned res =>
      cases res with
      | none =>
        obtain ⟨h1, h2, h3⟩ :=
          ih { st0 with attempts := st0.attempts ++ [(ns, (upsert ns st0.world).outcome)],
                        calls := st0.calls ++ (upsert ns st0.world).calls,
                        world := (upsert ns st0.world).world } hRest
        simp only [hOut] at h1 h2 h3 ⊢
        refine ⟨by simpa using h1, h2, ?_⟩
        rw [h3]
        simp
      | some err =>
        obtain ⟨h1, h2, h3⟩ :=
          ih { st0 with attempts := st0.attempts ++ [(ns, (upsert ns st0.world).outcome)],
                        calls := st0.calls ++ (upsert ns st0.world).calls,
                        world := (upsert ns st0.world).world,
                        failed := true } hRest
        simp only [hOut] at h1 h2 h3 ⊢
        refine ⟨by simpa using h1, h2, ?_⟩
        rw [h3]
        simp

/-- X3: when every call of `UpdatePassword` returns (with or without an
error), the loop of `main` makes exactly the calls of `eachNamespaceOnce`:
one for every namespace of the list, in list order, each in the world the
earlier calls left, whatever they returned; and the run ends in the panic
`failed to create one of more Docker login secrets` if and only if at least
one of these calls returned an error, and normally if and only if all of
them returned no error. -/
theorem main_loop_attempts_every_namespace {σ : Type} (upsert : GoString → σ → Run σ)
    (namespaces : List GoString) (w : σ)
    (hReturn : ∀ a ∈ eachNamespaceOnce upsert namespaces w, a.2 ≠ .panicked) :
    (updateNamespaces upsert namespaces (Progress.start w)).attempts
        = eachNamespaceOnce upsert namespaces w
      ∧ ((updateNamespaces upsert namespaces (Progress.start w)).result = some .failedSecrets
          ↔ ∃ a ∈ eachNamespaceOnce upsert namespaces w, ∃ err, a.2 = .returned (some err))
      ∧ ((updateNamespaces upsert namespaces (Progress.start w)).result = none
          ↔ ∀ a ∈ eachNamespaceOnce upsert namespaces w, a.2 = .returned none) := by
  obtain ⟨h1, h2, h3⟩ :=
    updateNamespaces_eachNamespaceOnce upsert namespaces (Progress.start w) hReturn
  have hPanicked : (updateNamespaces upsert namespaces (Progress.start w)).panicked = false := h2
  have hFailed : (updateNamespaces upsert namespaces (Progress.start w)).failed = true
      ↔ ∃ a ∈ eachNamespaceOnce upsert namespaces w, ∃ err, a.2 = .returned (some err) := by
    rw [h3]
    simp [Progress.start]
  refine ⟨by simpa [Progress.start] using h1, ?_, ?_⟩
  · rw [← hFailed]
    simp only [Progress.result, hPanicked]
    cases (updateNamespaces upsert namespaces (Progress.start w)).failed <;> simp
  · have h4 : (updateNamespaces upsert namespaces (Progress.start w)).result = none
        ↔ ¬ (updateNamespaces upsert namespaces (Progress.start w)).failed = true := by
      simp only [Progress.result, hPanicked]
      cases (updateNamespaces upsert namespaces (Progress.start w)).failed <;> simp
    rw [h4, hFailed]
    constructor
    · intro hNo a ha
      have hp := hReturn a ha
      cases hOut : a.2 with
      | panicked => exact absurd hOut hp
      | returned res =>
        cases res with
        | none => rfl
        | some err => exact absurd ⟨a, ha, err, hOut⟩ hNo
    · rintro hAll ⟨a, ha, err, he⟩
      rw [hAll a ha] at he
      cases he

theorem main_loop_attempts_every_namespace_witness :
    eachNamespaceOnce
        (fun ns w =>
          UpdatePassword noCreateInAppClient renderConfig ns (lit "regcred") (lit "AWS")
            (lit "pw") [lit "x.io"] sampleAnnotations w)
        [lit "app", lit "default"] sampleStore
        = [(lit "app", .returned (some errForbidden)), (lit "default", .returned none)]
      ∧ (updateNamespaces
        (fun ns w =>
          UpdatePassword noCreateInAppClient renderConfig ns (lit "regcred") (lit "AWS")
            (lit "pw") [lit "x.io"] sampleAnnotations w)
        [lit "app", lit "default"] (Progress.start sampleStore)).attempts
        = [(lit "app", .returned (some errForbidden)), (lit "default", .returned none)]
      ∧ (updateNamespaces
        (fun ns w =>
          UpdatePassword noCreateInAppClient renderConfig ns (lit "regcred") (lit "AWS")
            (lit "pw") [lit "x.io"] sampleAnnotations w)
        [lit "app", lit "default"] (Progress.start sampleStore)).result
        = some .failedSecrets := by
  have hEach :
      eachNamespaceOnce
        (fun ns w =>
          UpdatePassword noCreateInAppClient renderConfig ns (lit "regcred") (lit "AWS")
            (lit "pw") [lit "x.io"] sampleAnnotations w)
        [lit "app", lit "default"] sampleStore
        = [(lit "app", .returned (some errForbidden)), (lit "default", .returned none)] := by
    decide
  have h :=
    main_loop_attempts_every_namespace
      (fun ns w =>
        UpdatePassword noCreateInAppClient renderConfig ns (lit "regcred") (lit "AWS")
          (lit "pw") [lit "x.io"] sampleAnnotations w)
      [lit "app", lit "default"] sampleStore
      (by rw [hEach]; decide)
  refine ⟨hEach, h.1.trans hEach, h.2.1.mpr ?_⟩
  rw [hEach]
  exact ⟨_, List.mem_cons_self _ _, _, rfl⟩

end EcrRenew
